import Mathlib

/-! Bounded frame queue and paced consumer.

A shallow embedding of the frame queue (`ThreadProvider`), the frame wrapper
(`FramePtrWrapper`), the timestamp assignment of the encoder
(`CXMediaEncode::encodeVideo`), one iteration of the consumer loop of
`filevideo_to_flvfile`, the read loop, the receive loop and the frame-skip
logic of `FileVideoProvider::run` with its timestamp arithmetic, the two
threads that share a provider, and the frame interval of `VideoProvider`.

Conventions.
* C++ `int` and `int64_t` values are `Int`.  Where the source can overflow
  (`pts += 1000`) the wrap-around is written out with `wrapInt64`.
* An operation whose C++ behaviour is undefined (`pop_front` on an empty
  `std::list`) or that terminates the process (assigning to a joinable
  `std::thread`) returns `none`.
* The definitions in the namespace `ThreadProvider` are the operations as one
  thread performs them, each as a whole.  The mutex, the program points of the
  two threads and their interleavings are the state `Sys` and its steps.
* `double` values are `Double`: an integer mantissa and exponent, rounded to
  nearest with ties to even.
-/

/-! ## FramePtrWrapper (src/core/FramePtrWrapper.h) -/

/-- The frame wrapper: the bytes reachable through `data_ptr` (the empty list
for `nullptr`), the byte size and the timestamp. -/
structure FramePtrWrapper where
  data_ptr : List Nat
  byte_size : Int
  timestamp : Int
  deriving DecidableEq, Repr

namespace FramePtrWrapper

/-- The default constructor `FramePtrWrapper() = default` with the member
initialisers of the header: `data_ptr = nullptr`, `byte_size = 0`,
`timestamp = -1`.  This is the empty sentinel. -/
def empty : FramePtrWrapper :=
  { data_ptr := [], byte_size := 0, timestamp := -1 }

/-- Modelled from the spec: the body of the copy constructor
`FramePtrWrapper(const FramePtrWrapper&)` is not part of the sources (only its
declaration, commented as a deep copy, is).  The copy duplicates the payload
bytes and carries the same byte size and timestamp. -/
def copy (other : FramePtrWrapper) : FramePtrWrapper :=
  { data_ptr := other.data_ptr, byte_size := other.byte_size, timestamp := other.timestamp }

/-- Modelled from the spec: the body of `swap` is not part of the sources; its
declaration is commented as exchanging the data pointer, the byte size and the
timestamp of the two objects.  The result is the pair (new `this`, new `other`). -/
def swap (this other : FramePtrWrapper) : FramePtrWrapper × FramePtrWrapper :=
  ({ data_ptr := other.data_ptr, byte_size := other.byte_size, timestamp := other.timestamp },
   { data_ptr := this.data_ptr, byte_size := this.byte_size, timestamp := this.timestamp })

/-- Modelled from the spec: the body of the constructor
`FramePtrWrapper(void* data_ptr, int byte_size, int64_t timestamp)` is not part
of the sources; it initialises the object with the given pointer, size and
timestamp. -/
def create (data : List Nat) (byte_size timestamp : Int) : FramePtrWrapper :=
  { data_ptr := data, byte_size := byte_size, timestamp := timestamp }

/-- `getByteSize`. -/
def getByteSize (f : FramePtrWrapper) : Int := f.byte_size

/-- `getTimestamp`. -/
def getTimestamp (f : FramePtrWrapper) : Int := f.timestamp

end FramePtrWrapper

/-! ## ThreadProvider (src/providers/ThreadProvider.h, ThreadProvider.cpp) -/

/-- The members of `ThreadProvider`.  `m_thread` records whether the
`std::thread` object is joinable. -/
structure ThreadProvider where
  m_thread : Bool
  data_queue : List FramePtrWrapper
  curQueueSize : Int
  max_queue_len : Int
  is_exit : Bool
  deriving DecidableEq, Repr

namespace ThreadProvider

/-- A default-constructed provider: the member initialisers of the header. -/
def new : ThreadProvider :=
  { m_thread := false, data_queue := [], curQueueSize := 0, max_queue_len := 100, is_exit := true }

/-- `getMaxQueueLength`. -/
def getMaxQueueLength (s : ThreadProvider) : Int := s.max_queue_len

/-- `setMaxQueueLength`: assigns the capacity, nothing else. -/
def setMaxQueueLength (s : ThreadProvider) (value : Int) : ThreadProvider :=
  { s with max_queue_len := value }

/-- `isRunning`. -/
def isRunning (s : ThreadProvider) : Bool := s.is_exit == false

/-- The loop `while (curQueueSize >= max_queue_len) { data_queue.pop_front(); --curQueueSize; }`
of `push`, on the pair (queue, counter).  `pop_front` on an empty list is
undefined behaviour: `none`.  The recursion follows the list, which shrinks by
one element per iteration. -/
def evictLoop (max_queue_len : Int) : List FramePtrWrapper → Int → Option (List FramePtrWrapper × Int)
  | [], n => if n ≥ max_queue_len then none else some ([], n)
  | x :: t, n => if n ≥ max_queue_len then evictLoop max_queue_len t (n - 1) else some (x :: t, n)

/-- `push` (both overloads have the same body; `emplace_back(d)` copy-constructs
the new tail element in both, `d` being an lvalue inside the function). -/
def push (s : ThreadProvider) (d : FramePtrWrapper) : Option ThreadProvider :=
  if s.is_exit then some s
  else
    match evictLoop s.max_queue_len s.data_queue s.curQueueSize with
    | none => none
    | some (q, n) => some { s with data_queue := q ++ [d.copy], curQueueSize := n + 1 }

/-- `pop`: the returned frame and the state afterwards. -/
def pop (s : ThreadProvider) : FramePtrWrapper × ThreadProvider :=
  if s.is_exit then (FramePtrWrapper.empty, s)
  else
    match s.data_queue with
    | [] => (FramePtrWrapper.empty, s)
    | front :: rest =>
      ((FramePtrWrapper.swap FramePtrWrapper.empty front).1,
       { s with data_queue := rest, curQueueSize := s.curQueueSize - 1 })

/-- `top`: the returned frame and the state afterwards. -/
def top (s : ThreadProvider) : FramePtrWrapper × ThreadProvider :=
  if s.is_exit then (FramePtrWrapper.empty, s)
  else
    match s.data_queue with
    | [] => (FramePtrWrapper.empty, s)
    | front :: _ => (front.copy, s)

/-- `start`: clears the exit flag and assigns a new thread to `m_thread`.
Assigning to a joinable `std::thread` calls `std::terminate`: `none`. -/
def start (s : ThreadProvider) : Option ThreadProvider :=
  if s.m_thread then none
  else some { s with is_exit := false, m_thread := true }

/-- `stop`: the state in which the call returns, when it returns: the exit
flag set, the thread joined, the queue cleared and the counter reset.  Whether
the `join` returns depends on where the producer thread stands; that is the
subject of `Sys.consumerStep`. -/
def stop (s : ThreadProvider) : ThreadProvider :=
  { s with is_exit := true, m_thread := false, data_queue := [], curQueueSize := 0 }

/-- The public operations of a provider. -/
inductive Op where
  | push (d : FramePtrWrapper)
  | pop
  | top
  | start
  | stop
  | setMaxQueueLength (value : Int)
  deriving DecidableEq, Repr

/-- One public operation applied to a state; `none` when the operation has no
defined result. -/
def step (s : ThreadProvider) : Op → Option ThreadProvider
  | Op.push d => s.push d
  | Op.pop => some s.pop.2
  | Op.top => some s.top.2
  | Op.start => s.start
  | Op.stop => some s.stop
  | Op.setMaxQueueLength value => some (s.setMaxQueueLength value)

/-- A sequence of public operations applied in order. -/
def run (s : ThreadProvider) : List Op → Option ThreadProvider
  | [] => some s
  | op :: ops =>
    match s.step op with
    | none => none
    | some s' => run s' ops

/-- The states reachable from `s0` by public operations, each of which must
satisfy the side condition `ok` in the state it is applied to. -/
inductive Reachable (ok : ThreadProvider → Op → Prop) (s0 : ThreadProvider) : ThreadProvider → Prop
  | init : Reachable ok s0 s0
  | step {s s' : ThreadProvider} (op : Op) :
      Reachable ok s0 s → ok s op → s.step op = some s' → Reachable ok s0 s'

/-- A sequence of frames pushed one after the other. -/
def pushAll (s : ThreadProvider) : List FramePtrWrapper → Option ThreadProvider
  | [] => some s
  | d :: ds =>
    match s.push d with
    | none => none
    | some s' => pushAll s' ds

/-- The frames returned by `n` successive calls of `pop`, and the final state. -/
def popN : Nat → ThreadProvider → List FramePtrWrapper × ThreadProvider
  | 0, s => ([], s)
  | n + 1, s =>
    let r := s.pop
    let rs := popN n r.2
    (r.1 :: rs.1, rs.2)

/-- An empty running queue of capacity `C`. -/
def emptyRunning (C : Int) : ThreadProvider :=
  { m_thread := true, data_queue := [], curQueueSize := 0, max_queue_len := C, is_exit := false }

end ThreadProvider

/-- A frame carrying only a timestamp, for the scenarios of the specification. -/
def frameAt (timestamp : Int) : FramePtrWrapper :=
  FramePtrWrapper.create [0] 1 timestamp

/-- The state after `start`, two pushes and `setMaxQueueLength(1)` on a newly
constructed provider. -/
def ThreadProvider.overfull : ThreadProvider :=
  { m_thread := true, data_queue := [frameAt 10, frameAt 20], curQueueSize := 2,
    max_queue_len := 1, is_exit := false }

/-! ## CXMediaEncode::encodeVideo (src/encoders/XMediaEncode.cpp) -/

/-- Two's-complement wrap-around of a value into the range of `int64_t`. -/
def wrapInt64 (x : Int) : Int :=
  (x + 9223372036854775808) % 18446744073709551616 - 9223372036854775808

/-- The loop `while (pts == last_video_pts) pts += 1000;` of `encodeVideo`. -/
def bumpLoop (pts last_video_pts : Int) : Int :=
  if pts = last_video_pts then bumpLoop (wrapInt64 (pts + 1000)) last_video_pts else pts
termination_by (if pts = last_video_pts then 1 else 0 : Nat)
decreasing_by
  rename_i h
  subst h
  have hne : wrapInt64 (pts + 1000) ≠ pts := by
    unfold wrapInt64
    omega
  simp [hne]

/-- The same loop with a counter of the executions of its body. -/
def bumpLoopIters (pts last_video_pts : Int) : Int × Nat :=
  if pts = last_video_pts then
    ((bumpLoopIters (wrapInt64 (pts + 1000)) last_video_pts).1,
     (bumpLoopIters (wrapInt64 (pts + 1000)) last_video_pts).2 + 1)
  else (pts, 0)
termination_by (if pts = last_video_pts then 1 else 0 : Nat)
decreasing_by
  all_goals
    rename_i h
    subst h
    have hne : wrapInt64 (pts + 1000) ≠ pts := by
      unfold wrapInt64
      omega
    simp [hne]

/-- The encoder members that `encodeVideo` reads and writes. -/
structure CXMediaEncode where
  last_video_pts : Int
  deriving DecidableEq, Repr

namespace CXMediaEncode

/-- A freshly constructed encoder (`last_video_pts = 0`). -/
def new : CXMediaEncode := { last_video_pts := 0 }

/-- `close`, as far as the members of the model go: `last_video_pts = 0`. -/
def close (e : CXMediaEncode) : CXMediaEncode := { e with last_video_pts := 0 }

/-- `encodeVideo`: the value stored in `frame->pts` (the frame is then passed
to `avcodec_send_frame`) and the encoder afterwards. -/
def encodeVideo (e : CXMediaEncode) (pts : Int) : Int × CXMediaEncode :=
  let pts' := bumpLoop pts e.last_video_pts
  (pts', { e with last_video_pts := pts' })

/-- The values of `frame->pts` for a sequence of calls of `encodeVideo`. -/
def encodeAll (e : CXMediaEncode) : List Int → List Int
  | [] => []
  | pts :: rest => (e.encodeVideo pts).1 :: encodeAll (e.encodeVideo pts).2 rest

end CXMediaEncode

/-! ## The consumer loop of filevideo_to_flvfile (src/main.cpp) -/

/-- One iteration of `while (video_provider->isRunning())` up to the point
where the frame is handed to `rgb2yuv` and `encodeVideo`: the frame handed
downstream (if any) and the provider afterwards.  `now` is the value of
`Utils::get_curtime()` in this iteration. -/
def consumerIteration (is_local_file : Bool) (begintime now : Int) (s : ThreadProvider) :
    Option FramePtrWrapper × ThreadProvider :=
  let r := s.top
  let video_data_wraper := r.1
  let video_data_size := video_data_wraper.getByteSize
  let tmp_video_timestemp := video_data_wraper.getTimestamp
  let curTime := now - begintime
  let is_push := is_local_file || decide (tmp_video_timestemp ≤ curTime)
  if video_data_size ≠ 0 ∧ is_push = true then
    (some video_data_wraper, r.2.pop.2)
  else
    (none, r.2)

/-- The loop `while (video_provider->isRunning())` with one clock reading per
iteration: what each iteration handed downstream, and the provider when the
loop is left or the readings are used up.  `encoded d` tells whether `rgb2yuv`
and `encodeVideo` both returned a result for the frame `d`; only then the test
`video_timestamp >= 120*1000000` is reached, which leaves the loop. -/
def consumerLoop (is_local_file : Bool) (begintime : Int) (encoded : FramePtrWrapper → Bool) :
    List Int → ThreadProvider → List (Option FramePtrWrapper) × ThreadProvider
  | [], s => ([], s)
  | now :: rest, s =>
    if s.isRunning then
      match consumerIteration is_local_file begintime now s with
      | (some d, s') =>
        if encoded d = true ∧ d.getTimestamp ≥ 120 * 1000000 then ([some d], s')
        else
          ((some d) :: (consumerLoop is_local_file begintime encoded rest s').1,
           (consumerLoop is_local_file begintime encoded rest s').2)
      | (none, s') =>
        (none :: (consumerLoop is_local_file begintime encoded rest s').1,
         (consumerLoop is_local_file begintime encoded rest s').2)
    else ([], s)

/-! ## The double-precision arithmetic of the timestamps (FileVideoProvider.cpp, lines 217 and 220)

The expressions `av_q2d(time_base) * 1000000.0 * pts` and
`frame_count * 1000000.0 / fps` are evaluated in IEEE 754 binary64 with
rounding to nearest, ties to even, and converted to `int64_t` by truncation.
A result that is not finite, or a conversion whose truncated value does not
fit `int64_t` (undefined in C++), is `none`. -/

/-- A finite `double`: the number `mantissa * 2 ^ exponent`. -/
structure Double where
  mantissa : Int
  exponent : Int
  deriving DecidableEq, Repr

/-- The number of halvings that bring `n` below 2, at most `fuel` of them. -/
def log2Fuel : Nat → Nat → Nat
  | 0, _ => 0
  | fuel + 1, n => if 2 ≤ n then log2Fuel fuel (n / 2) + 1 else 0

/-- The integer part of the binary logarithm of `n ≥ 1`. -/
def floorLog2 (n : Nat) : Nat := log2Fuel n n

/-- Whether `n / d ≥ 2 ^ l`. -/
def geTwoPow (n d : Nat) (l : Int) : Bool :=
  if 0 ≤ l then decide (d * 2 ^ l.toNat ≤ n) else decide (d ≤ n * 2 ^ (-l).toNat)

/-- The integer part of the binary logarithm of `n / d`, for `n, d ≥ 1`. -/
def floorLog2Quot (n d : Nat) : Int :=
  if geTwoPow n d ((floorLog2 n : Int) - (floorLog2 d : Int)) then
    (floorLog2 n : Int) - (floorLog2 d : Int)
  else (floorLog2 n : Int) - (floorLog2 d : Int) - 1

/-- The quotient `N / D` rounded to the nearest integer, ties to the even one. -/
def roundNearestEven (N D : Nat) : Nat :=
  if 2 * (N % D) < D then N / D
  else if D < 2 * (N % D) then N / D + 1
  else if (N / D) % 2 = 0 then N / D
  else N / D + 1

namespace Double

/-- The numerator of the number a `double` stands for. -/
def num (x : Double) : Int :=
  if 0 ≤ x.exponent then x.mantissa * 2 ^ x.exponent.toNat else x.mantissa

/-- The denominator of the number a `double` stands for. -/
def den (x : Double) : Nat :=
  if 0 ≤ x.exponent then 1 else 2 ^ (-x.exponent).toNat

/-- The number a `double` stands for, as a rational. -/
def val (x : Double) : ℚ := (x.mantissa : ℚ) * (2 : ℚ) ^ x.exponent

/-- The exponent of the unit in the last place of the binary64 value nearest
to `n / q`, for `n, q ≥ 1`: 53 significant bits, and -1074 at the least. -/
def ulpExponent (n q : Nat) : Int := max (floorLog2Quot n q - 52) (-1074)

/-- The quotient `n / q` in units of `2 ^ e`, rounded to the nearest integer,
ties to the even one. -/
def roundScaled (n q : Nat) (e : Int) : Nat :=
  if 0 ≤ e then roundNearestEven n (q * 2 ^ e.toNat)
  else roundNearestEven (n * 2 ^ (-e).toNat) q

/-- The fraction `p / q` rounded to binary64; `none` for `q = 0` and when the
rounded value is 2 ^ 1024 or more. -/
def round (p : Int) (q : Nat) : Option Double :=
  if q = 0 then none
  else if p = 0 then some { mantissa := 0, exponent := 0 }
  else
    let e : Int := ulpExponent p.natAbs q
    let m : Nat := roundScaled p.natAbs q e
    if 0 ≤ e ∧ 2 ^ 1024 ≤ m * 2 ^ e.toNat then none
    else some { mantissa := if p < 0 then -(m : Int) else (m : Int), exponent := e }

/-- Conversion of an integer to `double`. -/
def ofInt (i : Int) : Option Double := round i 1

/-- The product of two `double`s. -/
def mul (x y : Double) : Option Double := round (x.num * y.num) (x.den * y.den)

/-- The quotient of two `double`s; a division by zero is not finite. -/
def div (x y : Double) : Option Double :=
  if y.mantissa = 0 then none
  else round (if y.mantissa < 0 then -(x.num * y.den) else x.num * y.den) (x.den * y.num.natAbs)

/-- Conversion of a `double` to `int64_t`: truncation towards zero, undefined
when the truncated value does not fit. -/
def toInt64 (x : Double) : Option Int :=
  if -9223372036854775808 ≤ Int.tdiv x.num x.den ∧ Int.tdiv x.num x.den ≤ 9223372036854775807 then
    some (Int.tdiv x.num x.den)
  else none

end Double

/-- Modelled from the spec: `av_q2d` is an inline function of libavutil, not of
these sources: `a.num / (double) a.den`. -/
def av_q2d (num den : Int) : Option Double :=
  (Double.ofInt num).bind (fun n => (Double.ofInt den).bind (fun d => Double.div n d))

/-- Line 217: `av_q2d(time_base) * 1000000.0 * pts`, converted to `int64_t`. -/
def ptsToMicrosDouble (num den pts : Int) : Option Int :=
  (av_q2d num den).bind (fun a =>
    (Double.ofInt 1000000).bind (fun c =>
      (Double.mul a c).bind (fun b =>
        (Double.ofInt pts).bind (fun x =>
          (Double.mul b x).bind Double.toInt64))))

/-- Line 220: `frame_count * 1000000.0 / fps`, converted to `int64_t`. -/
def synthMicrosDouble (fps frame_count : Int) : Option Int :=
  (Double.ofInt frame_count).bind (fun n =>
    (Double.ofInt 1000000).bind (fun c =>
      (Double.mul n c).bind (fun b =>
        (Double.ofInt fps).bind (fun d =>
          (Double.div b d).bind Double.toInt64))))

/-! ## The frame loop of FileVideoProvider::run (src/providers/FileVideoProvider.cpp) -/

/-- What the producer sees of one frame returned by `avcodec_receive_frame`:
its `best_effort_timestamp`, the return value of `sws_scale` for it and the
converted bytes in `rgbFrame->data[0]`. -/
structure DecodedFrame where
  best_effort_timestamp : Int
  sws_len : Int
  rgb : List Nat
  deriving DecidableEq, Repr

/-- The members of `FileVideoProvider` read by the frame loop:
`time_base_num` and `time_base_den` are the two members of
`formatCtx->streams[videoStreamIndex]->time_base`. -/
structure FileVideoProvider where
  width : Int
  height : Int
  frame_interval : Int
  time_base_num : Int
  time_base_den : Int
  fps : Int
  videoStreamIndex : Int

namespace FileVideoProvider

/-- The initialiser of line 217, `av_q2d(time_base) * 1000000.0 * pts`
converted to `int64_t`.  Where the conversion has no defined result the model
takes -2 ^ 63; the statements on timestamps assume a defined result. -/
def ptsToMicros (p : FileVideoProvider) (pts : Int) : Int :=
  (ptsToMicrosDouble p.time_base_num p.time_base_den pts).getD (-9223372036854775808)

/-- The right-hand side of line 220, `frame_count * 1000000.0 / fps` converted
to `int64_t`, with the same convention. -/
def synthMicros (p : FileVideoProvider) (frame_count : Int) : Int :=
  (synthMicrosDouble p.fps frame_count).getD (-9223372036854775808)

/-- The timestamp computation of lines 216 to 221. -/
def timestampUs (p : FileVideoProvider) (frame_count : Int) (frame : DecodedFrame) : Int :=
  let pts := frame.best_effort_timestamp
  let timestamp_us := p.ptsToMicros pts
  if timestamp_us = 0 then p.synthMicros frame_count else timestamp_us

/-- The argument of `push` for a frame that is kept. -/
def wrap (p : FileVideoProvider) (frame_count : Int) (frame : DecodedFrame) : FramePtrWrapper :=
  FramePtrWrapper.create frame.rgb (p.height * p.width * 3) (p.timestampUs frame_count frame)

/-- The body of the receive loop for one frame returned by
`avcodec_receive_frame` (lines 200 to 229): the new `frame_count` and the
frame passed to `push`, if any.  `%` of C++ is the truncating remainder. -/
def onFrame (p : FileVideoProvider) (frame_count : Int) (frame : DecodedFrame) :
    Int × Option FramePtrWrapper :=
  let frame_count := frame_count + 1
  if Int.tmod frame_count p.frame_interval ≠ 0 then (frame_count, none)
  else if frame.sws_len ≤ 0 then (frame_count, none)
  else (frame_count, some (p.wrap frame_count frame))

end FileVideoProvider

/-- A provider with frame interval 2 for a stream whose time base is one
millisecond and whose frame rate is 25, for the scenario of the
specification. -/
def FileVideoProvider.sample : FileVideoProvider :=
  { width := 2, height := 1, frame_interval := 2,
    time_base_num := 1, time_base_den := 1000, fps := 25,
    videoStreamIndex := 0 }

/-- Modelled from the spec: `AVERROR_EOF` is a constant of libavutil, not of
these sources; its value is the negated tag of the characters E, O, F and
space. -/
def AVERROR_EOF : Int := -541478725

/-- Conversion of an `int` to `size_t` (64 bit), as done by the comparison of
`data_queue.size()` with an `int` expression. -/
def toSizeT (x : Int) : Int := x % 18446744073709551616

/-- The condition of the loop on line 223:
`!is_exit && data_queue.size() > max_queue_len / 3 * 2`, with the truncating
division of C++ and the right-hand side converted to `size_t`. -/
def FileVideoProvider.waitCondition (s : ThreadProvider) : Bool :=
  !s.is_exit && decide ((s.data_queue.length : Int) > toSizeT (Int.tdiv s.max_queue_len 3 * 2))

/-- What the library calls of one iteration of the read loop return:
`readRet` from `av_read_frame`, `flushRet` from `avcodec_send_packet(codecCtx, NULL)`
(made only at end of file), the `stream_index` of the packet, `sendRet` from
`avcodec_send_packet(codecCtx, pkt)` and the frames that an accepted packet
adds to the output of the decoder. -/
structure ReadStep where
  readRet : Int
  flushRet : Int
  stream_index : Int
  sendRet : Int
  decoded : List DecodedFrame
  deriving DecidableEq, Repr

/-- The locals of `run` (`try_time`, `frame_count`), the frames that
`avcodec_receive_frame` will return next (`ready`) and the provider. -/
structure ProducerState where
  try_time : Int
  frame_count : Int
  ready : List DecodedFrame
  provider : ThreadProvider
  deriving DecidableEq, Repr

/-- Where the producer stands: `running` (the read loop goes on), `left` (the
read loop has been left) or `waiting` (inside the loop of line 223, which no
step of the producer itself can end). -/
inductive LoopStatus where
  | running
  | left
  | waiting
  deriving DecidableEq, Repr

namespace FileVideoProvider

/-- The receive loop `while (!is_exit) { ... }` of lines 194 to 230, on the
frames the decoder has ready.  A frame that is skipped or pushed ends the loop
(`break`), a frame whose conversion fails leads to the next one (`continue`). -/
def receiveLoop (p : FileVideoProvider) (try_time : Int) :
    List DecodedFrame → Int → ThreadProvider → Option (LoopStatus × ProducerState)
  | [], frame_count, s =>
    some (LoopStatus.running,
      { try_time := try_time, frame_count := frame_count, ready := [], provider := s })
  | frame :: rest, frame_count, s =>
    if s.is_exit then
      some (LoopStatus.running,
        { try_time := try_time, frame_count := frame_count, ready := frame :: rest, provider := s })
    else if Int.tmod (frame_count + 1) p.frame_interval ≠ 0 then
      some (LoopStatus.running,
        { try_time := try_time, frame_count := frame_count + 1, ready := rest, provider := s })
    else if frame.sws_len ≤ 0 then
      receiveLoop p try_time rest (frame_count + 1) s
    else if waitCondition s then
      some (LoopStatus.waiting,
        { try_time := try_time, frame_count := frame_count + 1, ready := rest, provider := s })
    else
      match s.push (p.wrap (frame_count + 1) frame) with
      | none => none
      | some s' =>
        some (LoopStatus.running,
          { try_time := try_time, frame_count := frame_count + 1, ready := rest, provider := s' })

/-- Lines 184 to 230: what follows a read that did not fail. -/
def afterRead (p : FileVideoProvider) (r : ReadStep) (st : ProducerState) :
    Option (LoopStatus × ProducerState) :=
  if r.stream_index ≠ p.videoStreamIndex then
    some (LoopStatus.running, { st with try_time := 0 })
  else if r.sendRet < 0 then
    some (LoopStatus.running, { st with try_time := 0 })
  else
    receiveLoop p 0 (st.ready ++ r.decoded) st.frame_count st.provider

/-- One iteration of the read loop `while (!is_exit) { ... }` of lines 166 to
231, entered with `is_exit` false. -/
def loopBody (p : FileVideoProvider) (r : ReadStep) (st : ProducerState) :
    Option (LoopStatus × ProducerState) :=
  if r.readRet = AVERROR_EOF then
    if r.flushRet ≠ 0 then some (LoopStatus.left, st)
    else afterRead p r st
  else if r.readRet ≠ 0 then
    if st.try_time + 1 > 100 ∨ st.provider.is_exit = true then
      some (LoopStatus.left, { st with try_time := st.try_time + 1 })
    else
      some (LoopStatus.running, { st with try_time := st.try_time + 1 })
  else afterRead p r st

/-- The read loop over the results of the successive reads. -/
def readLoop (p : FileVideoProvider) :
    List ReadStep → ProducerState → Option (LoopStatus × ProducerState)
  | [], st => some (if st.provider.is_exit then LoopStatus.left else LoopStatus.running, st)
  | r :: rest, st =>
    if st.provider.is_exit then some (LoopStatus.left, st)
    else
      match loopBody p r st with
      | none => none
      | some (LoopStatus.running, st') => readLoop p rest st'
      | some (status, st') => some (status, st')

/-- The locals of `run` before the read loop. -/
def initial (s : ThreadProvider) : ProducerState :=
  { try_time := 0, frame_count := 0, ready := [], provider := s }

/-- `run` from the read loop on: when the loop has been left, `is_exit = true`
is assigned (line 237). -/
def producerRun (p : FileVideoProvider) (script : List ReadStep) (st : ProducerState) :
    Option (LoopStatus × ProducerState) :=
  match readLoop p script st with
  | some (LoopStatus.left, st') =>
    some (LoopStatus.left, { st' with provider := { st'.provider with is_exit := true } })
  | other => other

end FileVideoProvider

/-- A read that fails with a value that is neither 0 nor `AVERROR_EOF`. -/
def failedRead : ReadStep :=
  { readRet := -5, flushRet := 0, stream_index := 0, sendRet := 0, decoded := [] }

/-- A read at the end of the file whose flush of the decoder is refused. -/
def endOfFile : ReadStep :=
  { readRet := AVERROR_EOF, flushRet := AVERROR_EOF, stream_index := 0, sendRet := 0,
    decoded := [] }

/-- A read of a packet of stream 0 that the decoder accepts and that makes the
given frames ready. -/
def videoPacket (frames : List DecodedFrame) : ReadStep :=
  { readRet := 0, flushRet := 0, stream_index := 0, sendRet := 0, decoded := frames }

/-- The sample provider with frame interval 1. -/
def FileVideoProvider.everyFrame : FileVideoProvider :=
  { FileVideoProvider.sample with frame_interval := 1 }

/-- Modelled from the spec: `AV_NOPTS_VALUE` is a constant of libavutil, not of
these sources; it is the value of `best_effort_timestamp` that stands for "no
presentation time", the least `int64_t`. -/
def AV_NOPTS_VALUE : Int := -9223372036854775808

/-- A convertible frame with the given presentation time. -/
def frameWithPts (pts : Int) : DecodedFrame :=
  { best_effort_timestamp := pts, sws_len := 1, rgb := [1] }

/-- A running queue of capacity 5 that holds three frames. -/
def ThreadProvider.threeOfFive : ThreadProvider :=
  { ThreadProvider.emptyRunning 5 with
      data_queue := [frameAt 10, frameAt 20, frameAt 30], curQueueSize := 3 }

/-- The producer after one pushed frame and the end of the file: the frame is
queued and `is_exit` is set. -/
def strandedState : ProducerState :=
  { try_time := 0, frame_count := 1, ready := [],
    provider :=
      { ThreadProvider.emptyRunning 100 with
          data_queue := [FileVideoProvider.everyFrame.wrap 1 (frameWithPts 1)],
          curQueueSize := 1, is_exit := true } }

/-- A provider that keeps every frame of a stream whose time base is 1/24 and
whose frame rate is 24. -/
def FileVideoProvider.film : FileVideoProvider :=
  { width := 2, height := 1, frame_interval := 1,
    time_base_num := 1, time_base_den := 24, fps := 24,
    videoStreamIndex := 0 }

/-! ## Two threads on one provider (ThreadProvider.cpp, FileVideoProvider::run)

The operations of `ThreadProvider` and the loop of `FileVideoProvider::run` in
steps of one access to the shared members each, for the thread that drives the
pipeline (`consumer`) and the thread started by `start` (`producer`).  A step
that cannot be taken (a `lock_guard` on a mutex that is held, a `join` on a
thread that has not ended) has no result. -/

/-- The two threads. -/
inductive Tid where
  | consumer
  | producer
  deriving DecidableEq, Repr

/-- The shared members of the provider. -/
inductive Var where
  | data_queue
  | curQueueSize
  | max_queue_len
  | is_exit
  | m_thread
  deriving DecidableEq, Repr

/-- Lines 39 to 45 of `push`, which run with the mutex held: the eviction loop,
`emplace_back` and the increment. -/
def ThreadProvider.pushLocked (s : ThreadProvider) (d : FramePtrWrapper) : Option ThreadProvider :=
  match ThreadProvider.evictLoop s.max_queue_len s.data_queue s.curQueueSize with
  | none => none
  | some (q, n) => some { s with data_queue := q ++ [d.copy], curQueueSize := n + 1 }

/-- Lines 53 to 61 of `pop`, which run with the mutex held, as far as the
provider goes. -/
def ThreadProvider.popLocked (s : ThreadProvider) : ThreadProvider :=
  match s.data_queue with
  | [] => s
  | _ :: rest => { s with data_queue := rest, curQueueSize := s.curQueueSize - 1 }

/-- Where the consumer thread stands: outside the queue operations (`idle`), or
inside `top` (lines 66, 68, 69 to 74, end of scope), `pop` (lines 50, 52, 53 to
61, end of scope) or `stop` (lines 86, 87, 88 to 89, 90 to 91, end of scope). -/
inductive ConsumerPc where
  | idle
  | topCheck
  | topLock
  | topBody
  | topUnlock
  | popCheck
  | popLock
  | popBody
  | popUnlock
  | stopLock
  | stopSet
  | stopJoin
  | stopClear
  | stopUnlock
  deriving DecidableEq, Repr

/-- Where the producer thread stands in `run`: at the test of the read loop
(line 166), in the wait loop before the push (line 223), inside `push` (lines
36, 38, 39 to 45, end of scope), at the assignment after the loop (line 237),
or ended. -/
inductive ProducerPc where
  | loopHead
  | waitLoop (d : FramePtrWrapper)
  | pushCheck (d : FramePtrWrapper)
  | pushLock (d : FramePtrWrapper)
  | pushBody (d : FramePtrWrapper)
  | pushUnlock
  | finish
  | done
  deriving DecidableEq, Repr

/-- The operation the consumer calls next when it is idle. -/
inductive Call where
  | top
  | pop
  | stop
  deriving DecidableEq, Repr

/-- What an iteration of the read loop comes to: a frame to push, no frame
(`continue`, or a `break` of the receive loop), or leaving the loop (`break`). -/
inductive Produce where
  | frame (d : FramePtrWrapper)
  | noFrame
  | leave
  deriving DecidableEq, Repr

/-- One step of a schedule: the thread that moves, with its choice. -/
inductive Move where
  | consumer (c : Call)
  | producer (n : Produce)
  deriving DecidableEq, Repr

/-- The shared members the next step of the consumer reads or writes. -/
def ConsumerPc.accesses : ConsumerPc → List Var
  | ConsumerPc.topCheck => [Var.is_exit]
  | ConsumerPc.topBody => [Var.data_queue]
  | ConsumerPc.popCheck => [Var.is_exit]
  | ConsumerPc.popBody => [Var.data_queue, Var.curQueueSize]
  | ConsumerPc.stopSet => [Var.is_exit]
  | ConsumerPc.stopJoin => [Var.m_thread]
  | ConsumerPc.stopClear => [Var.data_queue, Var.curQueueSize]
  | _ => []

/-- The shared members the next step of the producer reads or writes. -/
def ProducerPc.accesses : ProducerPc → List Var
  | ProducerPc.loopHead => [Var.is_exit]
  | ProducerPc.waitLoop _ => [Var.is_exit, Var.data_queue, Var.max_queue_len]
  | ProducerPc.pushCheck _ => [Var.is_exit]
  | ProducerPc.pushBody _ => [Var.curQueueSize, Var.max_queue_len, Var.data_queue]
  | ProducerPc.finish => [Var.is_exit]
  | _ => []

/-- The consumer is between a `lock_guard` and the end of its scope. -/
def ConsumerPc.locked : ConsumerPc → Bool
  | ConsumerPc.topBody => true
  | ConsumerPc.topUnlock => true
  | ConsumerPc.popBody => true
  | ConsumerPc.popUnlock => true
  | ConsumerPc.stopSet => true
  | ConsumerPc.stopJoin => true
  | ConsumerPc.stopClear => true
  | ConsumerPc.stopUnlock => true
  | _ => false

/-- The producer is between the `lock_guard` of `push` and the end of its
scope. -/
def ProducerPc.locked : ProducerPc → Bool
  | ProducerPc.pushBody _ => true
  | ProducerPc.pushUnlock => true
  | _ => false

/-- The provider, the owner of the mutex and the two program points. -/
structure Sys where
  shared : ThreadProvider
  mutex : Option Tid
  consumer : ConsumerPc
  producer : ProducerPc
  deriving DecidableEq, Repr

namespace Sys

/-- The state right after `start`: no operation under way, the producer at the
test of its read loop. -/
def started (s : ThreadProvider) : Sys :=
  { shared := s, mutex := none, consumer := ConsumerPc.idle, producer := ProducerPc.loopHead }

/-- A provider whose producer thread has ended or was never started, with no
operation under way. -/
def quiet (s : ThreadProvider) : Sys :=
  { shared := s, mutex := none, consumer := ConsumerPc.idle, producer := ProducerPc.done }

/-- One step of the consumer thread. -/
def consumerStep (σ : Sys) (c : Call) : Option Sys :=
  match σ.consumer with
  | ConsumerPc.idle =>
    match c with
    | Call.top => some { σ with consumer := ConsumerPc.topCheck }
    | Call.pop => some { σ with consumer := ConsumerPc.popCheck }
    | Call.stop => some { σ with consumer := ConsumerPc.stopLock }
  | ConsumerPc.topCheck =>
    if σ.shared.is_exit then some { σ with consumer := ConsumerPc.idle }
    else some { σ with consumer := ConsumerPc.topLock }
  | ConsumerPc.topLock =>
    if σ.mutex = none then
      some { σ with mutex := some Tid.consumer, consumer := ConsumerPc.topBody }
    else none
  | ConsumerPc.topBody => some { σ with consumer := ConsumerPc.topUnlock }
  | ConsumerPc.topUnlock => some { σ with mutex := none, consumer := ConsumerPc.idle }
  | ConsumerPc.popCheck =>
    if σ.shared.is_exit then some { σ with consumer := ConsumerPc.idle }
    else some { σ with consumer := ConsumerPc.popLock }
  | ConsumerPc.popLock =>
    if σ.mutex = none then
      some { σ with mutex := some Tid.consumer, consumer := ConsumerPc.popBody }
    else none
  | ConsumerPc.popBody =>
    some { σ with shared := σ.shared.popLocked, consumer := ConsumerPc.popUnlock }
  | ConsumerPc.popUnlock => some { σ with mutex := none, consumer := ConsumerPc.idle }
  | ConsumerPc.stopLock =>
    if σ.mutex = none then
      some { σ with mutex := some Tid.consumer, consumer := ConsumerPc.stopSet }
    else none
  | ConsumerPc.stopSet =>
    some { σ with shared := { σ.shared with is_exit := true }, consumer := ConsumerPc.stopJoin }
  | ConsumerPc.stopJoin =>
    if σ.shared.m_thread then
      if σ.producer = ProducerPc.done then
        some { σ with shared := { σ.shared with m_thread := false },
                      consumer := ConsumerPc.stopClear }
      else none
    else some { σ with consumer := ConsumerPc.stopClear }
  | ConsumerPc.stopClear =>
    some { σ with shared := { σ.shared with data_queue := [], curQueueSize := 0 },
                  consumer := ConsumerPc.stopUnlock }
  | ConsumerPc.stopUnlock => some { σ with mutex := none, consumer := ConsumerPc.idle }

/-- One step of the producer thread. -/
def producerStep (σ : Sys) (n : Produce) : Option Sys :=
  match σ.producer with
  | ProducerPc.loopHead =>
    if σ.shared.is_exit then some { σ with producer := ProducerPc.finish }
    else
      match n with
      | Produce.frame d => some { σ with producer := ProducerPc.waitLoop d }
      | Produce.noFrame => some σ
      | Produce.leave => some { σ with producer := ProducerPc.finish }
  | ProducerPc.waitLoop d =>
    if FileVideoProvider.waitCondition σ.shared then some σ
    else some { σ with producer := ProducerPc.pushCheck d }
  | ProducerPc.pushCheck d =>
    if σ.shared.is_exit then some { σ with producer := ProducerPc.loopHead }
    else some { σ with producer := ProducerPc.pushLock d }
  | ProducerPc.pushLock d =>
    if σ.mutex = none then
      some { σ with mutex := some Tid.producer, producer := ProducerPc.pushBody d }
    else none
  | ProducerPc.pushBody d =>
    match σ.shared.pushLocked d with
    | none => none
    | some s' => some { σ with shared := s', producer := ProducerPc.pushUnlock }
  | ProducerPc.pushUnlock => some { σ with mutex := none, producer := ProducerPc.loopHead }
  | ProducerPc.finish =>
    some { σ with shared := { σ.shared with is_exit := true }, producer := ProducerPc.done }
  | ProducerPc.done => none

/-- One step of a schedule. -/
def step (σ : Sys) : Move → Option Sys
  | Move.consumer c => σ.consumerStep c
  | Move.producer n => σ.producerStep n

/-- A schedule, step by step; no result when a step cannot be taken. -/
def exec (σ : Sys) : List Move → Option Sys
  | [] => some σ
  | m :: rest =>
    match σ.step m with
    | none => none
    | some σ' => exec σ' rest

end Sys

/-- The state in which `stop` waits in `join` with the mutex held while the
producer waits for the mutex in `push`. -/
def Sys.stuck : Sys :=
  { shared := { ThreadProvider.emptyRunning 100 with is_exit := true },
    mutex := some Tid.consumer,
    consumer := ConsumerPc.stopJoin,
    producer := ProducerPc.pushLock (frameAt 10) }

/-- The producer is about to read `is_exit` in `push`; nobody holds the mutex. -/
def Sys.beforePushCheck : Sys :=
  { shared := ThreadProvider.emptyRunning 100, mutex := none, consumer := ConsumerPc.idle,
    producer := ProducerPc.pushCheck (frameAt 10) }

/-- The producer is about to evaluate the condition of its wait loop; nobody
holds the mutex. -/
def Sys.beforeWait : Sys :=
  { shared := ThreadProvider.emptyRunning 100, mutex := none, consumer := ConsumerPc.idle,
    producer := ProducerPc.waitLoop (frameAt 10) }

/-- The producer holds the mutex inside `push`. -/
def Sys.insidePush : Sys :=
  { shared := ThreadProvider.emptyRunning 100, mutex := some Tid.producer,
    consumer := ConsumerPc.idle, producer := ProducerPc.pushBody (frameAt 10) }

/-- The owner of the mutex is the thread that stands between a `lock_guard`
and the end of its scope. -/
def Sys.Inv (σ : Sys) : Prop :=
  (σ.consumer.locked = true ↔ σ.mutex = some Tid.consumer)
    ∧ (σ.producer.locked = true ↔ σ.mutex = some Tid.producer)

/-! ## VideoProvider (src/providers/VideoProvider.h, VideoProvider.cpp) -/

/-- The members of `VideoProvider` besides those of `ThreadProvider`. -/
structure VideoProvider where
  width : Int
  height : Int
  fps : Int
  frame_interval : Int
  deriving DecidableEq, Repr

namespace VideoProvider

/-- A newly constructed provider: the member initialisers of the header. -/
def new : VideoProvider := { width := 0, height := 0, fps := 0, frame_interval := 1 }

/-- `getFps`: `fps / frame_interval`; a division by zero has no defined
result. -/
def getFps (v : VideoProvider) : Option Int :=
  if v.frame_interval = 0 then none else some (Int.tdiv v.fps v.frame_interval)

/-- `getFrameInterval`. -/
def getFrameInterval (v : VideoProvider) : Int := v.frame_interval

/-- `setFrameInterval`: the returned flag and the provider afterwards. -/
def setFrameInterval (v : VideoProvider) (interval : Int) : Bool × VideoProvider :=
  if interval ≤ 0 then (false, v)
  else (true, { v with frame_interval := interval })

/-- The operations that write the members: `setFrameInterval`, and the
assignments of `width`, `height` and `fps` in `FileVideoProvider::init`. -/
inductive Op where
  | setFrameInterval (interval : Int)
  | init (width height fps : Int)
  deriving DecidableEq, Repr

/-- One operation applied to a provider. -/
def step (v : VideoProvider) : Op → VideoProvider
  | Op.setFrameInterval interval => (v.setFrameInterval interval).2
  | Op.init width height fps => { v with width := width, height := height, fps := fps }

/-- A sequence of operations applied in order. -/
def run (v : VideoProvider) : List Op → VideoProvider
  | [] => v
  | op :: ops => run (v.step op) ops

end VideoProvider

set_option maxRecDepth 100000

/-! ## Lemmas on the queue operations -/

theorem wrapInt64_add_ne (l : Int) : wrapInt64 (l + 1000) ≠ l := by
  unfold wrapInt64
  omega

theorem FramePtrWrapper.copy_eq (f : FramePtrWrapper) : f.copy = f := rfl

theorem FramePtrWrapper.swap_empty_fst (f : FramePtrWrapper) :
    (FramePtrWrapper.swap FramePtrWrapper.empty f).1 = f := rfl

namespace ThreadProvider

/-- The eviction loop on a counter that agrees with the list: it drops
`max 0 (n - C + 1)` head elements. -/
theorem evictLoop_eq (C : Int) (hC : 1 ≤ C) (q : List FramePtrWrapper) :
    evictLoop C q (q.length : Int)
      = some (q.drop (max 0 ((q.length : Int) - C + 1)).toNat,
              (q.length : Int) - ((max 0 ((q.length : Int) - C + 1)).toNat : Int)) := by
  induction q with
  | nil =>
    have h : ¬ ((0 : Int) ≥ C) := by omega
    have hk : (max 0 ((0 : Int) - C + 1)).toNat = 0 := by omega
    simp [evictLoop, h, hk]
    exact hC
  | cons x t ih =>
    by_cases h : ((t.length : Int) + 1) ≥ C
    · have hk : (max 0 (((t.length : Int) + 1) - C + 1)).toNat
          = (max 0 ((t.length : Int) - C + 1)).toNat + 1 := by omega
      simp only [evictLoop, List.length_cons, Nat.cast_add, Nat.cast_one, h, if_true,
        add_sub_cancel_right, ih, hk, List.drop_succ_cons]
      congr 2
      omega
    · have hk : (max 0 (((t.length : Int) + 1) - C + 1)).toNat = 0 := by omega
      simp only [evictLoop, List.length_cons, Nat.cast_add, Nat.cast_one, h, if_false, hk,
        List.drop_zero]
      simp

/-- The result of `push` on a running queue whose counter agrees with the list. -/
theorem push_eq (s : ThreadProvider) (f : FramePtrWrapper) (hrun : s.is_exit = false)
    (hsize : s.curQueueSize = (s.data_queue.length : Int)) (hC : 1 ≤ s.max_queue_len) :
    s.push f = some { s with
      data_queue :=
        s.data_queue.drop (max 0 ((s.data_queue.length : Int) - s.max_queue_len + 1)).toNat ++ [f],
      curQueueSize := min (s.data_queue.length : Int) (s.max_queue_len - 1) + 1 } := by
  unfold push
  rw [hsize, evictLoop_eq _ hC]
  simp only [hrun, FramePtrWrapper.copy_eq]
  simp only [Bool.false_eq_true, if_false, Option.some.injEq]
  congr 1
  omega

end ThreadProvider

namespace ThreadProvider

/-- Pushing a list of frames into a running queue that respects its capacity:
the queue afterwards is the last `C` elements of the old contents followed by
the pushed frames. -/
theorem pushAll_eq (C : Nat) (hC : 1 ≤ C) (fs : List FramePtrWrapper) :
    ∀ s : ThreadProvider, s.is_exit = false → s.max_queue_len = (C : Int) →
      s.curQueueSize = (s.data_queue.length : Int) → s.data_queue.length ≤ C →
      s.pushAll fs = some { s with
        data_queue := (s.data_queue ++ fs).drop ((s.data_queue ++ fs).length - C),
        curQueueSize := ((min (s.data_queue ++ fs).length C : Nat) : Int) } := by
  induction fs with
  | nil =>
    intro s _ _ hsize hlen
    obtain ⟨t, q, n, m, e⟩ := s
    simp only at hsize hlen
    have h0 : q.length - C = 0 := by omega
    simp [pushAll, h0, hsize, hlen]
  | cons d ds ih =>
    intro s hrun hcap hsize hlen
    have hC' : 1 ≤ s.max_queue_len := by omega
    rw [pushAll, push_eq s d hrun hsize hC']
    simp only
    obtain ⟨t, q, n, m, e⟩ := s
    simp only at hrun hcap hsize hlen hC' ⊢
    subst hcap
    by_cases hfull : q.length = C
    · have hk : (max 0 ((q.length : Int) - (C : Int) + 1)).toNat = 1 := by omega
      rw [hk]
      cases q with
      | nil => simp at hfull; omega
      | cons x q' =>
        simp only [List.drop_succ_cons, List.drop_zero]
        rw [ih _ hrun rfl (by simp at hfull ⊢; omega) (by simp at hfull ⊢; omega)]
        simp only [List.length_cons, List.length_append, List.append_assoc, List.singleton_append,
          List.cons_append, Option.some.injEq, mk.injEq, true_and, and_true]
        simp only [List.length_cons] at hfull
        constructor
        · have h1 : q'.length + (ds.length + 1) + 1 - C = (q'.length + (ds.length + 1) - C) + 1 := by
            omega
          rw [h1, List.drop_succ_cons]
          simp
        · omega
    · have hk : (max 0 ((q.length : Int) - (C : Int) + 1)).toNat = 0 := by omega
      rw [hk]
      simp only [List.drop_zero]
      rw [ih _ hrun rfl (by simp; omega) (by simp; omega)]
      simp only [List.length_append, List.append_assoc, List.singleton_append, List.length_cons,
        List.length_nil, Option.some.injEq, mk.injEq, true_and, and_true]

end ThreadProvider

/-! ## The queue contract -/

/-- C1: for every capacity `C ≥ 1`, pushing `n > C` frames one after the other
into an empty running queue of capacity `C` (no pop in between) leaves exactly
the last `C` pushed frames, in their original order, and a size counter of `C`. -/
theorem ThreadProvider.pushAll_retains_last_capacity (C : Nat) (hC : 1 ≤ C) (s : ThreadProvider)
    (hrun : s.is_exit = false) (hcap : s.max_queue_len = (C : Int)) (hempty : s.data_queue = [])
    (hsize : s.curQueueSize = 0) (fs : List FramePtrWrapper) (hn : C < fs.length) :
    s.pushAll fs = some { s with data_queue := fs.drop (fs.length - C), curQueueSize := (C : Int) }
      ∧ (fs.drop (fs.length - C)).length = C
      ∧ fs.drop (fs.length - C) <:+ fs := by
  refine ⟨?_, ?_, List.drop_suffix _ _⟩
  · rw [ThreadProvider.pushAll_eq C hC fs s hrun hcap (by simp [hempty, hsize]) (by simp [hempty])]
    simp only [hempty, List.nil_append, Option.some.injEq]
    congr 2
    omega
  · simp only [List.length_drop]
    omega

/-- The scenario of the specification for C1: capacity 3 and timestamps
10, 20, 30, 40 leave 20, 30, 40. -/
theorem ThreadProvider.pushAll_retains_last_capacity_witness :
    (ThreadProvider.emptyRunning 3).pushAll ([10, 20, 30, 40].map frameAt)
      = some { ThreadProvider.emptyRunning 3 with
          data_queue := [20, 30, 40].map frameAt, curQueueSize := 3 } :=
  (ThreadProvider.pushAll_retains_last_capacity 3 (by decide) (ThreadProvider.emptyRunning 3)
    rfl rfl rfl rfl ([10, 20, 30, 40].map frameAt) (by decide)).1

/-- C3: on a running queue with contents `q` of length `n` (the counter agreeing
with the list) and capacity `C ≥ 1`, `push f` removes the first
`max 0 (n - C + 1)` elements of `q` and appends `f`: nothing is removed when
`n < C`, exactly one element when `n = C`, more than one only when `n > C`; the
new size is `min n (C - 1) + 1`, for the counter and for the list. -/
theorem ThreadProvider.push_evicts_head_then_appends (s : ThreadProvider) (f : FramePtrWrapper)
    (hrun : s.is_exit = false) (hsize : s.curQueueSize = (s.data_queue.length : Int))
    (hC : 1 ≤ s.max_queue_len) :
    s.push f = some { s with
        data_queue :=
          s.data_queue.drop (max 0 ((s.data_queue.length : Int) - s.max_queue_len + 1)).toNat ++ [f],
        curQueueSize := min (s.data_queue.length : Int) (s.max_queue_len - 1) + 1 }
      ∧ (((s.data_queue.drop
            (max 0 ((s.data_queue.length : Int) - s.max_queue_len + 1)).toNat ++ [f]).length : Int)
          = min (s.data_queue.length : Int) (s.max_queue_len - 1) + 1)
      ∧ ((s.data_queue.length : Int) < s.max_queue_len →
          (max 0 ((s.data_queue.length : Int) - s.max_queue_len + 1)).toNat = 0)
      ∧ ((s.data_queue.length : Int) = s.max_queue_len →
          (max 0 ((s.data_queue.length : Int) - s.max_queue_len + 1)).toNat = 1)
      ∧ (1 < (max 0 ((s.data_queue.length : Int) - s.max_queue_len + 1)).toNat →
          s.max_queue_len < (s.data_queue.length : Int)) := by
  refine ⟨ThreadProvider.push_eq s f hrun hsize hC, ?_, ?_, ?_, ?_⟩
  · simp only [List.length_append, List.length_drop, List.length_singleton]
    omega
  · omega
  · omega
  · omega

/-- A full queue of capacity 2: the push removes the head and appends. -/
theorem ThreadProvider.push_evicts_head_then_appends_witness :
    ({ ThreadProvider.emptyRunning 2 with
        data_queue := [frameAt 10, frameAt 20], curQueueSize := 2 }).push (frameAt 30)
      = some { ThreadProvider.emptyRunning 2 with
          data_queue := [frameAt 20, frameAt 30], curQueueSize := 2 } :=
  (ThreadProvider.push_evicts_head_then_appends
    { ThreadProvider.emptyRunning 2 with data_queue := [frameAt 10, frameAt 20], curQueueSize := 2 }
    (frameAt 30) rfl rfl (by decide)).1

namespace ThreadProvider

theorem pop_cons (s : ThreadProvider) (hrun : s.is_exit = false) (f : FramePtrWrapper)
    (rest : List FramePtrWrapper) (hq : s.data_queue = f :: rest) :
    s.pop = (f, { s with data_queue := rest, curQueueSize := s.curQueueSize - 1 }) := by
  simp [pop, hrun, hq, FramePtrWrapper.swap_empty_fst]

theorem pop_nil (s : ThreadProvider) (hq : s.data_queue = []) :
    s.pop = (FramePtrWrapper.empty, s) := by
  unfold pop
  split
  · rfl
  · simp [hq]

theorem popN_all (q : List FramePtrWrapper) :
    ∀ s : ThreadProvider, s.is_exit = false → s.data_queue = q →
      s.popN (q.length + 1)
        = (q ++ [FramePtrWrapper.empty],
           { s with data_queue := [], curQueueSize := s.curQueueSize - (q.length : Int) }) := by
  induction q with
  | nil =>
    intro s _ hq
    obtain ⟨t, q, n, m, e⟩ := s
    simp only at hq
    subst hq
    simp [popN, pop_nil]
  | cons f rest ih =>
    intro s hrun hq
    rw [List.length_cons, popN, pop_cons s hrun f rest hq]
    simp only
    rw [ih { s with data_queue := rest, curQueueSize := s.curQueueSize - 1 } hrun rfl]
    simp only [List.cons_append, Nat.cast_add, Nat.cast_one, Prod.mk.injEq, true_and, mk.injEq,
      and_true]
    omega

end ThreadProvider

/-- C2: on a running queue holding `f1 .. fn`, `n + 1` successive calls of `pop`
return `f1, .., fn` in insertion order followed by the empty sentinel (byte
size 0, timestamp -1); a pop on a non-empty queue removes exactly the head and
decreases the counter and the length by one; a pop on the empty queue leaves
the state unchanged. -/
theorem ThreadProvider.popN_returns_fifo_then_sentinel (s : ThreadProvider)
    (hrun : s.is_exit = false) :
    s.popN (s.data_queue.length + 1)
        = (s.data_queue ++ [FramePtrWrapper.empty],
           { s with data_queue := [],
                    curQueueSize := s.curQueueSize - (s.data_queue.length : Int) })
      ∧ FramePtrWrapper.empty.byte_size = 0 ∧ FramePtrWrapper.empty.timestamp = -1
      ∧ (∀ f rest, s.data_queue = f :: rest →
          s.pop = (f, { s with data_queue := rest, curQueueSize := s.curQueueSize - 1 })
            ∧ s.pop.2.data_queue.length + 1 = s.data_queue.length)
      ∧ (s.data_queue = [] → s.pop = (FramePtrWrapper.empty, s)) := by
  refine ⟨ThreadProvider.popN_all _ s hrun rfl, rfl, rfl, ?_, ThreadProvider.pop_nil s⟩
  intro f rest hq
  rw [ThreadProvider.pop_cons s hrun f rest hq]
  simp [hq]

/-- The scenario of the specification for C2: four pops on the queue holding
20, 30, 40 yield 20, 30, 40 and the sentinel. -/
theorem ThreadProvider.popN_returns_fifo_then_sentinel_witness :
    (({ ThreadProvider.emptyRunning 3 with
        data_queue := [20, 30, 40].map frameAt, curQueueSize := 3 }).popN 4).1
      = [frameAt 20, frameAt 30, frameAt 40, FramePtrWrapper.empty] :=
  congrArg Prod.fst (ThreadProvider.popN_returns_fifo_then_sentinel
    { ThreadProvider.emptyRunning 3 with data_queue := [20, 30, 40].map frameAt, curQueueSize := 3 }
    rfl).1

/-- C4: `top` leaves the whole state (contents, counter, capacity, running flag)
unchanged; on a running non-empty queue it returns a frame with the byte size
and timestamp of the head, and on an empty queue the sentinel with byte size 0
and timestamp -1. -/
theorem ThreadProvider.top_leaves_state_and_copies_head (s : ThreadProvider) :
    s.top.2 = s
      ∧ (∀ f rest, s.is_exit = false → s.data_queue = f :: rest →
          s.top.1.byte_size = f.byte_size ∧ s.top.1.timestamp = f.timestamp)
      ∧ (s.data_queue = [] →
          s.top.1 = FramePtrWrapper.empty ∧ s.top.1.byte_size = 0 ∧ s.top.1.timestamp = -1) := by
  refine ⟨?_, ?_, ?_⟩
  · unfold ThreadProvider.top
    split
    · rfl
    · split <;> rfl
  · intro f rest hrun hq
    simp [ThreadProvider.top, hrun, hq, FramePtrWrapper.copy_eq]
  · intro hq
    have h : s.top.1 = FramePtrWrapper.empty := by
      unfold ThreadProvider.top
      split
      · rfl
      · simp [hq]
    rw [h]
    exact ⟨rfl, rfl, rfl⟩

namespace ThreadProvider

/-- What the eviction loop guarantees whenever it returns: the counter is below
the capacity and has moved in step with the list. -/
theorem evictLoop_spec (C : Int) (q : List FramePtrWrapper) :
    ∀ (n : Int) (q' : List FramePtrWrapper) (n' : Int), evictLoop C q n = some (q', n') →
      n' < C ∧ n' - (q'.length : Int) = n - (q.length : Int) := by
  induction q with
  | nil =>
    intro n q' n' h
    by_cases hn : n ≥ C
    · simp [evictLoop, hn] at h
    · simp only [evictLoop, hn, if_false, Option.some.injEq, Prod.mk.injEq] at h
      obtain ⟨rfl, rfl⟩ := h
      exact ⟨by omega, rfl⟩
  | cons x t ih =>
    intro n q' n' h
    by_cases hn : n ≥ C
    · simp only [evictLoop, hn, if_true] at h
      have := ih (n - 1) q' n' h
      simp only [List.length_cons, Nat.cast_add, Nat.cast_one]
      omega
    · simp only [evictLoop, hn, if_false, Option.some.injEq, Prod.mk.injEq] at h
      obtain ⟨rfl, rfl⟩ := h
      exact ⟨by omega, rfl⟩

/-- Every public operation keeps the counter equal to the length of the list. -/
theorem step_size_eq_length (s s' : ThreadProvider) (op : Op)
    (hinv : s.curQueueSize = (s.data_queue.length : Int)) (hstep : s.step op = some s') :
    s'.curQueueSize = (s'.data_queue.length : Int) := by
  cases op with
  | push d =>
    simp only [step, push] at hstep
    split at hstep
    · simp only [Option.some.injEq] at hstep
      subst hstep
      exact hinv
    · split at hstep
      · simp at hstep
      · rename_i q n heq
        simp only [Option.some.injEq] at hstep
        subst hstep
        have := (evictLoop_spec _ _ _ _ _ heq).2
        simp only [List.length_append, List.length_singleton, Nat.cast_add, Nat.cast_one]
        omega
  | pop =>
    simp only [step, pop, Option.some.injEq] at hstep
    subst hstep
    split
    · exact hinv
    · split
      · exact hinv
      · rename_i front rest heq
        simp only [heq, List.length_cons, Nat.cast_add, Nat.cast_one] at hinv ⊢
        omega
  | top =>
    simp only [step, top, Option.some.injEq] at hstep
    subst hstep
    split
    · exact hinv
    · split <;> exact hinv
  | start =>
    simp only [step, start] at hstep
    split at hstep
    · simp at hstep
    · simp only [Option.some.injEq] at hstep
      subst hstep
      exact hinv
  | stop =>
    simp only [step, stop, Option.some.injEq] at hstep
    subst hstep
    simp
  | setMaxQueueLength v =>
    simp only [step, setMaxQueueLength, Option.some.injEq] at hstep
    subst hstep
    exact hinv

/-- Every public operation other than a capacity change below the current size
keeps the counter at or below the capacity. -/
theorem step_size_le_capacity (s s' : ThreadProvider) (op : Op)
    (hinv : s.curQueueSize = (s.data_queue.length : Int))
    (hle : s.curQueueSize ≤ s.max_queue_len)
    (hok : ∀ v, op = Op.setMaxQueueLength v → s.curQueueSize ≤ v)
    (hstep : s.step op = some s') :
    s'.curQueueSize ≤ s'.max_queue_len := by
  cases op with
  | push d =>
    simp only [step, push] at hstep
    split at hstep
    · simp only [Option.some.injEq] at hstep
      subst hstep
      exact hle
    · split at hstep
      · simp at hstep
      · rename_i q n heq
        simp only [Option.some.injEq] at hstep
        subst hstep
        have := (evictLoop_spec _ _ _ _ _ heq).1
        simp only
        omega
  | pop =>
    simp only [step, pop, Option.some.injEq] at hstep
    subst hstep
    split
    · exact hle
    · split
      · exact hle
      · simp only
        omega
  | top =>
    simp only [step, top, Option.some.injEq] at hstep
    subst hstep
    split
    · exact hle
    · split <;> exact hle
  | start =>
    simp only [step, start] at hstep
    split at hstep
    · simp at hstep
    · simp only [Option.some.injEq] at hstep
      subst hstep
      exact hle
  | stop =>
    simp only [step, stop, Option.some.injEq] at hstep
    subst hstep
    simp only
    omega
  | setMaxQueueLength v =>
    simp only [step, setMaxQueueLength, Option.some.injEq] at hstep
    subst hstep
    exact hok v rfl

/-- The counter equals the length in every state reachable from a state where
it does. -/
theorem reachable_size_eq_length (ok : ThreadProvider → Op → Prop) (s0 s : ThreadProvider)
    (h0 : s0.curQueueSize = (s0.data_queue.length : Int)) (h : Reachable ok s0 s) :
    s.curQueueSize = (s.data_queue.length : Int) := by
  induction h with
  | init => exact h0
  | step op _ _ hstep ih => exact step_size_eq_length _ _ op ih hstep

end ThreadProvider

/-! ## Invariants of the queue -/

/-- C5 as stated fails: after `start`, two pushes and `setMaxQueueLength(1)` the
provider holds two frames with a capacity of one. -/
theorem ThreadProvider.size_le_capacity_counterexample :
    ThreadProvider.run ThreadProvider.new
        [ThreadProvider.Op.start, ThreadProvider.Op.push (frameAt 10),
         ThreadProvider.Op.push (frameAt 20), ThreadProvider.Op.setMaxQueueLength 1]
      = some ThreadProvider.overfull
    ∧ ThreadProvider.Reachable (fun _ _ => True) ThreadProvider.new ThreadProvider.overfull
    ∧ ¬ (ThreadProvider.overfull.curQueueSize ≤ ThreadProvider.overfull.max_queue_len) := by
  have h1 : ThreadProvider.Reachable (fun _ _ => True) ThreadProvider.new
      (ThreadProvider.emptyRunning 100) :=
    ThreadProvider.Reachable.step ThreadProvider.Op.start ThreadProvider.Reachable.init
      trivial (by decide)
  have h2 : ThreadProvider.Reachable (fun _ _ => True) ThreadProvider.new
      { ThreadProvider.emptyRunning 100 with data_queue := [frameAt 10], curQueueSize := 1 } :=
    ThreadProvider.Reachable.step (ThreadProvider.Op.push (frameAt 10)) h1 trivial (by decide)
  have h3 : ThreadProvider.Reachable (fun _ _ => True) ThreadProvider.new
      { ThreadProvider.emptyRunning 100 with
          data_queue := [frameAt 10, frameAt 20], curQueueSize := 2 } :=
    ThreadProvider.Reachable.step (ThreadProvider.Op.push (frameAt 20)) h2 trivial (by decide)
  exact ⟨by decide,
    ThreadProvider.Reachable.step (ThreadProvider.Op.setMaxQueueLength 1) h3 trivial (by decide),
    by decide⟩

/-- C5, amended: in every state reachable from a newly constructed provider by
`push`, `pop`, `top`, `start`, `stop` and by calls `setMaxQueueLength(v)` made
with `v` at least the current queue size, the queue size is at most the
capacity. -/
theorem ThreadProvider.size_le_capacity_of_guarded_resize (s : ThreadProvider)
    (h : ThreadProvider.Reachable
      (fun s op => ∀ v, op = ThreadProvider.Op.setMaxQueueLength v → s.curQueueSize ≤ v)
      ThreadProvider.new s) :
    s.curQueueSize ≤ s.max_queue_len := by
  have key : s.curQueueSize = (s.data_queue.length : Int) ∧ s.curQueueSize ≤ s.max_queue_len := by
    induction h with
    | init => exact ⟨rfl, by decide⟩
    | step op _ hok hstep ih =>
      exact ⟨ThreadProvider.step_size_eq_length _ _ op ih.1 hstep,
        ThreadProvider.step_size_le_capacity _ _ op ih.1 ih.2 hok hstep⟩
  exact key.2

/-- A started provider that has taken one push: size 1, capacity 100. -/
theorem ThreadProvider.size_le_capacity_of_guarded_resize_witness :
    ({ ThreadProvider.emptyRunning 100 with
        data_queue := [frameAt 10], curQueueSize := 1 }).curQueueSize
      ≤ ({ ThreadProvider.emptyRunning 100 with
        data_queue := [frameAt 10], curQueueSize := 1 }).max_queue_len :=
  ThreadProvider.size_le_capacity_of_guarded_resize _
    (ThreadProvider.Reachable.step (ThreadProvider.Op.push (frameAt 10))
      (ThreadProvider.Reachable.step ThreadProvider.Op.start ThreadProvider.Reachable.init
        (fun _ h => by cases h)
        (show ThreadProvider.new.step ThreadProvider.Op.start
            = some (ThreadProvider.emptyRunning 100) by decide))
      (fun _ h => by cases h) (by decide))

/-- C6: in every state reachable from a newly constructed provider of positive
capacity by `push`, `pop`, `top`, `start` and `stop`, the size counter equals
the length of the underlying list, and so is not negative. -/
theorem ThreadProvider.size_counter_eq_length (C : Int) (hC : 1 ≤ C) (s : ThreadProvider)
    (h : ThreadProvider.Reachable (fun _ op => ∀ v, op ≠ ThreadProvider.Op.setMaxQueueLength v)
      { ThreadProvider.new with max_queue_len := C } s) :
    s.curQueueSize = (s.data_queue.length : Int) ∧ 0 ≤ s.curQueueSize := by
  have hC' := hC
  have key := ThreadProvider.reachable_size_eq_length _ _ s rfl h
  exact ⟨key, by omega⟩

/-- A started provider of capacity 3 that has taken one push. -/
theorem ThreadProvider.size_counter_eq_length_witness :
    ({ ThreadProvider.emptyRunning 3 with
        data_queue := [frameAt 10], curQueueSize := 1 }).curQueueSize
      = ((({ ThreadProvider.emptyRunning 3 with
        data_queue := [frameAt 10], curQueueSize := 1 }).data_queue.length : Nat) : Int) :=
  (ThreadProvider.size_counter_eq_length 3 (by decide) _
    (ThreadProvider.Reachable.step (ThreadProvider.Op.push (frameAt 10))
      (ThreadProvider.Reachable.step ThreadProvider.Op.start ThreadProvider.Reachable.init
        (fun _ h => by cases h)
        (show ThreadProvider.step { ThreadProvider.new with max_queue_len := 3 }
            ThreadProvider.Op.start = some (ThreadProvider.emptyRunning 3) by decide))
      (fun _ h => by cases h) (by decide))).1

/-! ## Behaviour after shutdown -/

namespace ThreadProvider

/-- Once the exit flag is set, every public operation other than `start` keeps
it set. -/
theorem reachable_stopped (s0 s : ThreadProvider) (h0 : s0.is_exit = true)
    (h : Reachable (fun _ op => op ≠ Op.start) s0 s) : s.is_exit = true := by
  induction h with
  | init => exact h0
  | step op _ hok hstep ih =>
    cases op with
    | push d =>
      simp only [step, push, ih, if_true, Option.some.injEq] at hstep
      subst hstep
      exact ih
    | pop =>
      simp only [step, pop, ih, if_true, Option.some.injEq] at hstep
      subst hstep
      exact ih
    | top =>
      simp only [step, top, ih, if_true, Option.some.injEq] at hstep
      subst hstep
      exact ih
    | start => exact absurd rfl hok
    | stop =>
      simp only [step, stop, Option.some.injEq] at hstep
      subst hstep
      rfl
    | setMaxQueueLength v =>
      simp only [step, setMaxQueueLength, Option.some.injEq] at hstep
      subst hstep
      exact ih

end ThreadProvider

/-- C7: in every state between a call of `stop` and the next `start`, `push f`
returns normally and leaves the state unchanged for every frame `f`, and `pop`
and `top` return the empty sentinel (byte size 0, timestamp -1) and leave the
state unchanged. -/
theorem ThreadProvider.stopped_operations_are_noops (s0 s : ThreadProvider) (f : FramePtrWrapper)
    (h : ThreadProvider.Reachable (fun _ op => op ≠ ThreadProvider.Op.start) s0.stop s) :
    s.push f = some s
      ∧ s.pop = (FramePtrWrapper.empty, s)
      ∧ s.top = (FramePtrWrapper.empty, s)
      ∧ FramePtrWrapper.empty.byte_size = 0 ∧ FramePtrWrapper.empty.timestamp = -1 := by
  have hexit := ThreadProvider.reachable_stopped _ _ rfl h
  refine ⟨?_, ?_, ?_, rfl, rfl⟩
  · simp [ThreadProvider.push, hexit]
  · simp [ThreadProvider.pop, hexit]
  · simp [ThreadProvider.top, hexit]

/-- A queue holding two frames is stopped: the next push is dropped. -/
theorem ThreadProvider.stopped_operations_are_noops_witness :
    (ThreadProvider.stop { ThreadProvider.emptyRunning 3 with
        data_queue := [frameAt 10, frameAt 20], curQueueSize := 2 }).push (frameAt 30)
      = some (ThreadProvider.stop { ThreadProvider.emptyRunning 3 with
        data_queue := [frameAt 10, frameAt 20], curQueueSize := 2 }) :=
  (ThreadProvider.stopped_operations_are_noops
    { ThreadProvider.emptyRunning 3 with data_queue := [frameAt 10, frameAt 20], curQueueSize := 2 }
    _ (frameAt 30) ThreadProvider.Reachable.init).1

/-! ## Timestamps assigned by the encoder -/

/-- The bump loop runs at most once: it adds 1000 when the timestamp equals the
previous one and leaves it alone otherwise. -/
theorem bumpLoop_eq (pts last_video_pts : Int) :
    bumpLoop pts last_video_pts
      = if pts = last_video_pts then wrapInt64 (pts + 1000) else pts := by
  rw [bumpLoop]
  split
  · rename_i h
    subst h
    rw [bumpLoop]
    simp [wrapInt64_add_ne]
  · rfl

theorem bumpLoop_ne (pts last_video_pts : Int) : bumpLoop pts last_video_pts ≠ last_video_pts := by
  rw [bumpLoop_eq]
  split
  · rename_i h
    subst h
    exact wrapInt64_add_ne _
  · assumption

namespace CXMediaEncode

theorem encodeAll_chain_ne (ts : List Int) :
    ∀ e : CXMediaEncode, List.Chain (· ≠ ·) e.last_video_pts (e.encodeAll ts) := by
  induction ts with
  | nil => intro e; exact List.Chain.nil
  | cons t rest ih =>
    intro e
    rw [encodeAll]
    exact List.Chain.cons (Ne.symm (bumpLoop_ne _ _)) (ih _)

theorem encodeAll_of_sorted (ts : List Int) :
    ∀ e : CXMediaEncode, ts.head? ≠ some e.last_video_pts → List.Sorted (· < ·) ts →
      e.encodeAll ts = ts := by
  induction ts with
  | nil => intro e _ _; rfl
  | cons t rest ih =>
    intro e hhead hsorted
    have hne : t ≠ e.last_video_pts := by
      intro h
      exact hhead (by simp [h])
    have hb : bumpLoop t e.last_video_pts = t := by
      rw [bumpLoop_eq, if_neg hne]
    rw [encodeAll]
    simp only [encodeVideo, hb]
    rw [ih]
    · cases rest with
      | nil => simp
      | cons r rest' =>
        have : t < r := List.rel_of_sorted_cons hsorted r (List.mem_cons_self _ _)
        simp only [List.head?_cons, ne_eq, Option.some.injEq]
        omega
    · exact hsorted.of_cons

end CXMediaEncode

/-- C8 as stated fails: three frames with the timestamp 5 are given the pts
values 5, 1005, 5, which are not strictly increasing. -/
theorem CXMediaEncode.encodeAll_strictly_increasing_counterexample :
    CXMediaEncode.new.encodeAll [5, 5, 5] = [5, 1005, 5]
      ∧ ¬ List.Sorted (· < ·) (CXMediaEncode.new.encodeAll [5, 5, 5]) := by
  have h : CXMediaEncode.new.encodeAll [5, 5, 5] = [5, 1005, 5] := by
    simp [CXMediaEncode.encodeAll, CXMediaEncode.encodeVideo, CXMediaEncode.new, bumpLoop_eq,
      wrapInt64]
  rw [h]
  exact ⟨rfl, by decide⟩

/-- C8, amended: for every sequence of timestamps passed in order to
`encodeVideo` on a freshly initialised encoder, no two consecutive pts values
handed to the downstream encoder are equal; and when the input timestamps are
strictly increasing and the first is not 0, the pts values are the input
timestamps, hence strictly increasing. -/
theorem CXMediaEncode.encodeAll_consecutive_distinct (ts : List Int) :
    List.Chain' (· ≠ ·) (CXMediaEncode.new.encodeAll ts)
      ∧ (List.Sorted (· < ·) ts → ts.head? ≠ some 0 →
          CXMediaEncode.new.encodeAll ts = ts
            ∧ List.Sorted (· < ·) (CXMediaEncode.new.encodeAll ts)) := by
  constructor
  · have h := CXMediaEncode.encodeAll_chain_ne ts CXMediaEncode.new
    cases hts : CXMediaEncode.new.encodeAll ts with
    | nil => exact List.chain'_nil
    | cons o os =>
      rw [hts] at h
      exact (List.chain_cons.1 h).2
  · intro hsorted hhead
    have h := CXMediaEncode.encodeAll_of_sorted ts CXMediaEncode.new hhead hsorted
    rw [h]
    exact ⟨rfl, hsorted⟩

/-- Two frames with the same timestamp 40 after a frame at 20: the pts values
are 20, 40, 1040. -/
theorem CXMediaEncode.encodeAll_consecutive_distinct_witness :
    List.Chain' (· ≠ ·) (CXMediaEncode.new.encodeAll [20, 40, 40])
      ∧ CXMediaEncode.new.encodeAll [20, 30, 40] = [20, 30, 40] :=
  ⟨(CXMediaEncode.encodeAll_consecutive_distinct [20, 40, 40]).1,
   ((CXMediaEncode.encodeAll_consecutive_distinct [20, 30, 40]).2 (by decide) (by decide)).1⟩

/-! ## Pacing in the consumer loop -/

theorem ThreadProvider.top_snd (s : ThreadProvider) : s.top.2 = s := by
  unfold ThreadProvider.top
  split
  · rfl
  · split <;> rfl

/-- A frame of non-zero size returned by `top` is the head of a running queue. -/
theorem ThreadProvider.top_nonempty (s : ThreadProvider) (h : s.top.1.byte_size ≠ 0) :
    s.is_exit = false ∧ ∃ rest, s.data_queue = s.top.1 :: rest := by
  unfold ThreadProvider.top at h ⊢
  split at h
  · exact absurd rfl h
  · rename_i hexit
    split at h
    · exact absurd rfl h
    · rename_i front rest hq
      simp only [hexit, hq, Bool.not_eq_true, if_false, FramePtrWrapper.copy_eq]
      refine ⟨by simp, rest, rfl⟩

theorem consumerIteration_eq (is_local_file : Bool) (begintime now : Int) (s : ThreadProvider) :
    consumerIteration is_local_file begintime now s
      = if s.top.1.byte_size ≠ 0 ∧ (is_local_file = true ∨ s.top.1.timestamp ≤ now - begintime)
        then (some s.top.1, s.pop.2) else (none, s) := by
  simp only [consumerIteration, FramePtrWrapper.getByteSize, FramePtrWrapper.getTimestamp,
    ThreadProvider.top_snd, Bool.or_eq_true, decide_eq_true_eq]

theorem consumerLoop_early (begintime : Int) (encoded : FramePtrWrapper → Bool)
    (s : ThreadProvider) (hsize : s.top.1.byte_size ≠ 0) (late : Int)
    (hlate : s.top.1.timestamp ≤ late - begintime) (early : List Int)
    (hearly : ∀ n ∈ early, n - begintime < s.top.1.timestamp) :
    consumerLoop false begintime encoded (early ++ [late]) s
      = (List.replicate early.length none ++ [some s.top.1], s.pop.2) := by
  have hrun : s.isRunning = true := by
    simp [ThreadProvider.isRunning, (ThreadProvider.top_nonempty s hsize).1]
  induction early with
  | nil =>
    have hit : consumerIteration false begintime late s = (some s.top.1, s.pop.2) := by
      rw [consumerIteration_eq, if_pos ⟨hsize, Or.inr hlate⟩]
    simp only [List.nil_append, consumerLoop, hrun, if_true, hit, List.length_nil,
      List.replicate_zero]
    split <;> rfl
  | cons n rest ih =>
    have hn : ¬ (s.top.1.timestamp ≤ n - begintime) := by
      have := hearly n (List.mem_cons_self _ _)
      omega
    have hit : consumerIteration false begintime n s = (none, s) := by
      rw [consumerIteration_eq, if_neg]
      rintro ⟨_, h | h⟩
      · exact absurd h (by decide)
      · exact hn h
    simp only [List.cons_append, consumerLoop, hrun, if_true, hit, List.length_cons,
      List.replicate_succ]
    have h := ih (fun m hm => hearly m (List.mem_cons_of_mem _ hm))
    change (none :: (consumerLoop false begintime encoded (rest ++ [late]) s).1,
      (consumerLoop false begintime encoded (rest ++ [late]) s).2) = _
    rw [h]

/-- C9: in one iteration of the consumer loop, with `h` the frame returned by
`top` and `e = now - begintime`, a frame is handed downstream if and only if
`h.byte_size ≠ 0` and (pacing is disabled or `h.timestamp ≤ e`); in that case
the frame is `h`, it is the head of the queue and exactly it is popped;
otherwise the queue is unchanged.  Hence with pacing enabled the head frame is
not released while `e < h.timestamp`, and over successive polls it is released
at the first poll with `e ≥ h.timestamp`. -/
theorem consumerIteration_releases_iff_due (is_local_file : Bool) (begintime now : Int)
    (s : ThreadProvider) :
    (((consumerIteration is_local_file begintime now s).1.isSome = true)
        ↔ (s.top.1.byte_size ≠ 0
            ∧ (is_local_file = true ∨ s.top.1.timestamp ≤ now - begintime)))
      ∧ ((s.top.1.byte_size ≠ 0
            ∧ (is_local_file = true ∨ s.top.1.timestamp ≤ now - begintime)) →
          consumerIteration is_local_file begintime now s = (some s.top.1, s.pop.2)
            ∧ ∃ rest, s.data_queue = s.top.1 :: rest
                ∧ s.pop.2 = { s with data_queue := rest, curQueueSize := s.curQueueSize - 1 })
      ∧ (¬ (s.top.1.byte_size ≠ 0
            ∧ (is_local_file = true ∨ s.top.1.timestamp ≤ now - begintime)) →
          consumerIteration is_local_file begintime now s = (none, s))
      ∧ (is_local_file = false → now - begintime < s.top.1.timestamp →
          consumerIteration is_local_file begintime now s = (none, s))
      ∧ (∀ (encoded : FramePtrWrapper → Bool) (early : List Int) (late : Int),
          s.top.1.byte_size ≠ 0 →
          (∀ n ∈ early, n - begintime < s.top.1.timestamp) →
          s.top.1.timestamp ≤ late - begintime →
          consumerLoop false begintime encoded (early ++ [late]) s
            = (List.replicate early.length none ++ [some s.top.1], s.pop.2)) := by
  refine ⟨?_, ?_, ?_, ?_, ?_⟩
  · rw [consumerIteration_eq]
    split
    · rename_i h
      simpa using h
    · rename_i h
      simpa using h
  · intro h
    refine ⟨by rw [consumerIteration_eq, if_pos h], ?_⟩
    obtain ⟨hrun, rest, hq⟩ := ThreadProvider.top_nonempty s h.1
    exact ⟨rest, hq, by rw [ThreadProvider.pop_cons s hrun _ rest hq]⟩
  · intro h
    rw [consumerIteration_eq, if_neg h]
  · intro hl he
    rw [consumerIteration_eq, if_neg]
    rintro ⟨_, h | h⟩
    · rw [hl] at h
      exact absurd h (by decide)
    · omega
  · intro encoded early late hsize hearly hlate
    exact consumerLoop_early begintime encoded s hsize late hlate early hearly

/-- A frame stamped 500 ms at the head of a running queue, session start at
clock 1000: the polls at clock 1100 and 500999 release nothing, the poll at
clock 501000 (500 ms elapsed) releases the frame. -/
theorem consumerIteration_releases_iff_due_witness :
    consumerLoop false 1000 (fun _ => true) ([1100, 500999] ++ [501000])
        { ThreadProvider.emptyRunning 3 with
            data_queue := [frameAt 500000, frameAt 600000], curQueueSize := 2 }
      = (List.replicate 2 none ++ [some (frameAt 500000)],
         { ThreadProvider.emptyRunning 3 with
            data_queue := [frameAt 600000], curQueueSize := 1 }) :=
  (consumerIteration_releases_iff_due false 1000 0
    { ThreadProvider.emptyRunning 3 with
        data_queue := [frameAt 500000, frameAt 600000], curQueueSize := 2 }).2.2.2.2
    (fun _ => true) [1100, 500999] 501000 (by decide) (by decide) (by decide)

/-! ## Frame skipping in the producer -/

namespace FileVideoProvider

end FileVideoProvider

/-! ## Shutdown -/

/-- The state in which `stop` returns is not running, with an empty queue, a
size counter of 0 and the capacity unchanged, and it is a fixed point of
`stop`. -/
theorem ThreadProvider.stop_clears_and_is_idempotent (s : ThreadProvider) :
    s.stop.isRunning = false
      ∧ s.stop.data_queue = []
      ∧ s.stop.curQueueSize = 0
      ∧ s.stop.max_queue_len = s.max_queue_len
      ∧ s.stop.stop = s.stop :=
  ⟨rfl, rfl, rfl, rfl, rfl⟩

/-! ## The frame interval -/

namespace VideoProvider

theorem step_frame_interval_pos (v : VideoProvider) (op : Op) (h : 1 ≤ v.frame_interval) :
    1 ≤ (v.step op).frame_interval := by
  cases op with
  | setFrameInterval interval =>
    simp only [step, setFrameInterval]
    split
    · exact h
    · simp only
      omega
  | init width height fps => exact h

theorem run_frame_interval_pos (ops : List Op) :
    ∀ v : VideoProvider, 1 ≤ v.frame_interval → 1 ≤ (v.run ops).frame_interval := by
  induction ops with
  | nil => intro v h; exact h
  | cons op rest ih =>
    intro v h
    exact ih _ (step_frame_interval_pos v op h)

end VideoProvider

/-- C12: `setFrameInterval i` returns false and changes nothing for `i ≤ 0`,
returns true and stores `i` for `i ≥ 1`; so after every sequence of operations
on a newly constructed provider (default interval 1) the frame interval is at
least 1, it is not zero, and the division of `getFps` is defined. -/
theorem VideoProvider.setFrameInterval_keeps_interval_positive :
    (∀ (v : VideoProvider) (i : Int), i ≤ 0 → v.setFrameInterval i = (false, v))
      ∧ (∀ (v : VideoProvider) (i : Int), 1 ≤ i →
          v.setFrameInterval i = (true, { v with frame_interval := i }))
      ∧ VideoProvider.new.frame_interval = 1
      ∧ (∀ ops : List VideoProvider.Op,
          1 ≤ (VideoProvider.new.run ops).frame_interval
            ∧ (VideoProvider.new.run ops).frame_interval ≠ 0
            ∧ (VideoProvider.new.run ops).getFps
                = some (Int.tdiv (VideoProvider.new.run ops).fps
                    (VideoProvider.new.run ops).frame_interval)) := by
  refine ⟨?_, ?_, rfl, ?_⟩
  · intro v i hi
    simp [VideoProvider.setFrameInterval, hi]
  · intro v i hi
    have h : ¬ i ≤ 0 := by omega
    simp [VideoProvider.setFrameInterval, h]
  · intro ops
    have h := VideoProvider.run_frame_interval_pos ops VideoProvider.new (by decide)
    have hne : (VideoProvider.new.run ops).frame_interval ≠ 0 := by omega
    exact ⟨h, hne, by simp [VideoProvider.getFps, hne]⟩

/-- The calls of `main.cpp` and two rejected ones: interval 2 is kept, and
60 frames per second become 30. -/
theorem VideoProvider.setFrameInterval_keeps_interval_positive_witness :
    (VideoProvider.new.setFrameInterval 0 = (false, VideoProvider.new)
      ∧ VideoProvider.new.setFrameInterval 2
          = (true, { VideoProvider.new with frame_interval := 2 }))
      ∧ (VideoProvider.new.run
          [VideoProvider.Op.setFrameInterval 2, VideoProvider.Op.init 1280 720 60,
           VideoProvider.Op.setFrameInterval (-1)]).getFps = some 30 :=
  ⟨⟨VideoProvider.setFrameInterval_keeps_interval_positive.1 VideoProvider.new 0 (by decide),
    VideoProvider.setFrameInterval_keeps_interval_positive.2.1 VideoProvider.new 2 (by decide)⟩,
   (VideoProvider.setFrameInterval_keeps_interval_positive.2.2.2
      [VideoProvider.Op.setFrameInterval 2, VideoProvider.Op.init 1280 720 60,
       VideoProvider.Op.setFrameInterval (-1)]).2.2⟩

/-! ## The collision bump of the encoder -/

theorem bumpLoopIters_eq (pts last_video_pts : Int) :
    bumpLoopIters pts last_video_pts
      = if pts = last_video_pts then (wrapInt64 (pts + 1000), 1) else (pts, 0) := by
  rw [bumpLoopIters]
  split
  · rename_i h
    subst h
    rw [bumpLoopIters]
    simp [wrapInt64_add_ne]
  · rfl

/-- C14: for every input timestamp `p` and previously assigned timestamp `l`
(0 on a new or closed encoder), `encodeVideo` assigns `p` when `p ≠ l` and
`p + 1000` when `p = l` (no 64-bit overflow), and records the assigned value;
so the assigned value differs from the previous one and the body of the bump
loop runs at most once. -/
theorem CXMediaEncode.encodeVideo_bumps_on_collision (e : CXMediaEncode) (p : Int)
    (hlo : -9223372036854775808 ≤ p) (hhi : p + 1000 ≤ 9223372036854775807) :
    (e.encodeVideo p).1 = (if p = e.last_video_pts then p + 1000 else p)
      ∧ (e.encodeVideo p).2.last_video_pts = (e.encodeVideo p).1
      ∧ (e.encodeVideo p).1 ≠ e.last_video_pts
      ∧ (bumpLoopIters p e.last_video_pts).1 = (e.encodeVideo p).1
      ∧ (bumpLoopIters p e.last_video_pts).2 ≤ 1
      ∧ CXMediaEncode.new.last_video_pts = 0
      ∧ e.close.last_video_pts = 0 := by
  have hw : wrapInt64 (p + 1000) = p + 1000 := by
    unfold wrapInt64
    omega
  refine ⟨?_, rfl, ?_, ?_, ?_, rfl, rfl⟩
  · simp only [CXMediaEncode.encodeVideo, bumpLoop_eq, hw]
  · simp only [CXMediaEncode.encodeVideo]
    exact bumpLoop_ne _ _
  · simp only [CXMediaEncode.encodeVideo, bumpLoop_eq, bumpLoopIters_eq]
    split <;> rfl
  · rw [bumpLoopIters_eq]
    split <;> simp

/-- A timestamp equal to the previous one, 40, is assigned 1040. -/
theorem CXMediaEncode.encodeVideo_bumps_on_collision_witness :
    (CXMediaEncode.encodeVideo { last_video_pts := 40 } 40).1
      = (if (40 : Int) = 40 then 40 + 1000 else 40) :=
  (CXMediaEncode.encodeVideo_bumps_on_collision { last_video_pts := 40 } 40
    (by decide) (by decide)).1

/-! ## The wait before a push -/

/-- The wait condition on a running queue of capacity `C` in the range of
`int`: the length exceeds `C / 3 * 2`, with integer division. -/
theorem FileVideoProvider.waitCondition_eq (s : ThreadProvider) (C : Nat)
    (hmax : C ≤ 2147483647) (hcap : s.max_queue_len = (C : Int)) (hrun : s.is_exit = false) :
    FileVideoProvider.waitCondition s = true ↔ C / 3 * 2 < s.data_queue.length := by
  have h1 : Int.tdiv (C : Int) 3 = (C : Int) / 3 := Int.tdiv_eq_ediv (by omega) (by omega)
  simp only [FileVideoProvider.waitCondition, hrun, hcap, h1, toSizeT, Bool.not_false,
    Bool.true_and, decide_eq_true_eq]
  omega

/-- C15 as stated fails: with capacity 5 and three queued frames the producer
waits, although 3 * 3 > 2 * 5 is false. -/
theorem FileVideoProvider.waitCondition_two_thirds_counterexample :
    FileVideoProvider.waitCondition ThreadProvider.threeOfFive = true
      ∧ ¬ (3 * (ThreadProvider.threeOfFive.data_queue.length : Int)
            > 2 * ThreadProvider.threeOfFive.max_queue_len) := by
  decide

/-- C15, amended: for every capacity `C ≥ 1` and every queue length `n`, the
wait condition of the producer on a running queue is true exactly when
`n > (C / 3) * 2` with integer division; it is true whenever `3 * n > 2 * C`,
and the two are equivalent when `C` is a multiple of 3. -/
theorem FileVideoProvider.waitCondition_integer_threshold (s : ThreadProvider) (C : Nat)
    (hC : 1 ≤ C) (hmax : C ≤ 2147483647) (hcap : s.max_queue_len = (C : Int))
    (hrun : s.is_exit = false) :
    (FileVideoProvider.waitCondition s = true ↔ C / 3 * 2 < s.data_queue.length)
      ∧ (2 * C < 3 * s.data_queue.length → FileVideoProvider.waitCondition s = true)
      ∧ (C % 3 = 0 →
          (FileVideoProvider.waitCondition s = true ↔ 2 * C < 3 * s.data_queue.length)) := by
  have _hC := hC
  have h := FileVideoProvider.waitCondition_eq s C hmax hcap hrun
  refine ⟨h, ?_, ?_⟩
  · intro h3
    rw [h]
    omega
  · intro hdiv
    rw [h]
    omega

/-- Capacity 100 and 67 queued frames: 67 exceeds 100 / 3 * 2 = 66. -/
theorem FileVideoProvider.waitCondition_integer_threshold_witness :
    FileVideoProvider.waitCondition
        { ThreadProvider.emptyRunning 100 with
            data_queue := List.replicate 67 (frameAt 0), curQueueSize := 67 } = true
      ↔ 100 / 3 * 2
          < ({ ThreadProvider.emptyRunning 100 with
                data_queue := List.replicate 67 (frameAt 0),
                curQueueSize := 67 } : ThreadProvider).data_queue.length :=
  (FileVideoProvider.waitCondition_integer_threshold
    { ThreadProvider.emptyRunning 100 with
        data_queue := List.replicate 67 (frameAt 0), curQueueSize := 67 }
    100 (by decide) (by decide) rfl rfl).1

/-! ## The read loop of the producer -/

namespace FileVideoProvider

theorem loopBody_failed (p : FileVideoProvider) (r : ReadStep) (st : ProducerState)
    (hr : r.readRet ≠ 0 ∧ r.readRet ≠ AVERROR_EOF) :
    p.loopBody r st
      = if st.try_time + 1 > 100 ∨ st.provider.is_exit = true then
          some (LoopStatus.left, { st with try_time := st.try_time + 1 })
        else some (LoopStatus.running, { st with try_time := st.try_time + 1 }) := by
  simp only [loopBody, hr.1, hr.2, if_false, ne_eq, not_false_eq_true, if_true]

/-- A run of failed reads that stays within 100 attempts keeps the loop going. -/
theorem readLoop_failed_run (p : FileVideoProvider) (fails : List ReadStep) :
    ∀ st : ProducerState, st.provider.is_exit = false →
      (∀ r ∈ fails, r.readRet ≠ 0 ∧ r.readRet ≠ AVERROR_EOF) →
      st.try_time + (fails.length : Int) ≤ 100 →
      p.readLoop fails st
        = some (LoopStatus.running, { st with try_time := st.try_time + (fails.length : Int) }) := by
  induction fails with
  | nil =>
    intro st hrun _ _
    simp [readLoop, hrun]
  | cons r rest ih =>
    intro st hrun hfail hlen
    simp only [List.length_cons, Nat.cast_add, Nat.cast_one] at hlen
    have hnot : ¬ (st.try_time + 1 > 100 ∨ st.provider.is_exit = true) := by
      rw [hrun]
      simp only [Bool.false_eq_true, or_false]
      omega
    rw [readLoop, if_neg (by simp [hrun]),
      loopBody_failed p r st (hfail r (List.mem_cons_self _ _)), if_neg hnot]
    simp only
    rw [ih { st with try_time := st.try_time + 1 } hrun
      (fun x hx => hfail x (List.mem_cons_of_mem _ hx)) (by simp only; omega)]
    simp only [List.length_cons, Nat.cast_add, Nat.cast_one, Option.some.injEq, Prod.mk.injEq,
      true_and]
    congr 1
    omega

/-- A read loop that is still running after a first part of the reads goes on
with the rest. -/
theorem readLoop_append (p : FileVideoProvider) (first rest : List ReadStep) :
    ∀ st st' : ProducerState, p.readLoop first st = some (LoopStatus.running, st') →
      st'.provider.is_exit = false →
      p.readLoop (first ++ rest) st = p.readLoop rest st' := by
  induction first with
  | nil =>
    intro st st' h hrun
    simp only [readLoop, Option.some.injEq, Prod.mk.injEq] at h
    rw [← h.2]
    rfl
  | cons r more ih =>
    intro st st' h hrun
    rw [List.cons_append, readLoop]
    rw [readLoop] at h
    by_cases hexit : st.provider.is_exit = true
    · simp [hexit] at h
    · rw [if_neg hexit] at h ⊢
      cases hb : p.loopBody r st with
      | none =>
        rw [hb] at h
        simp at h
      | some res =>
        obtain ⟨status, st1⟩ := res
        rw [hb] at h
        cases status with
        | running => exact ih st1 st' h hrun
        | left => simp at h
        | waiting => simp at h

theorem receiveLoop_try_time (p : FileVideoProvider) (t : Int) (ready : List DecodedFrame) :
    ∀ (frame_count : Int) (s : ThreadProvider) (status : LoopStatus) (st' : ProducerState),
      p.receiveLoop t ready frame_count s = some (status, st') → st'.try_time = t := by
  induction ready with
  | nil =>
    intro fc s status st' h
    simp only [receiveLoop, Option.some.injEq, Prod.mk.injEq] at h
    rw [← h.2]
  | cons frame rest ih =>
    intro fc s status st' h
    rw [receiveLoop] at h
    split at h
    · simp only [Option.some.injEq, Prod.mk.injEq] at h
      rw [← h.2]
    · split at h
      · simp only [Option.some.injEq, Prod.mk.injEq] at h
        rw [← h.2]
      · split at h
        · exact ih _ _ _ _ h
        · split at h
          · simp only [Option.some.injEq, Prod.mk.injEq] at h
            rw [← h.2]
          · split at h
            · simp at h
            · simp only [Option.some.injEq, Prod.mk.injEq] at h
              rw [← h.2]

theorem afterRead_try_time (p : FileVideoProvider) (r : ReadStep) (st : ProducerState)
    (status : LoopStatus) (st' : ProducerState) (h : p.afterRead r st = some (status, st')) :
    st'.try_time = 0 := by
  unfold afterRead at h
  split at h
  · simp only [Option.some.injEq, Prod.mk.injEq] at h
    rw [← h.2]
  · split at h
    · simp only [Option.some.injEq, Prod.mk.injEq] at h
      rw [← h.2]
    · exact receiveLoop_try_time p 0 _ _ _ _ _ h

end FileVideoProvider

/-- C16: with the results of the successive packet reads given as a sequence,
and the failure counter at 0 on a running provider: the read loop keeps going
through any run of at most 100 consecutive failed reads (neither end of file
nor 0); at the 101st consecutive failure the loop is left and `run` ends
normally with `is_exit` true; and every successful read sets the failure
counter to 0. -/
theorem FileVideoProvider.readLoop_gives_up_at_101st_failure (p : FileVideoProvider)
    (st : ProducerState) (hrun : st.provider.is_exit = false) (h0 : st.try_time = 0)
    (fails : List ReadStep) (hfail : ∀ r ∈ fails, r.readRet ≠ 0 ∧ r.readRet ≠ AVERROR_EOF) :
    (fails.length ≤ 100 →
        p.readLoop fails st
          = some (LoopStatus.running, { st with try_time := (fails.length : Int) }))
      ∧ (fails.length = 101 → ∀ more : List ReadStep,
          p.producerRun (fails ++ more) st
            = some (LoopStatus.left,
                { st with try_time := 101, provider := { st.provider with is_exit := true } }))
      ∧ (∀ (r : ReadStep) (st1 : ProducerState) (status : LoopStatus) (st2 : ProducerState),
          r.readRet = 0 → p.loopBody r st1 = some (status, st2) → st2.try_time = 0) := by
  refine ⟨?_, ?_, ?_⟩
  · intro hlen
    rw [FileVideoProvider.readLoop_failed_run p fails st hrun hfail (by omega), h0]
    simp
  · intro hlen more
    have hsplit : fails = fails.take 100 ++ fails.drop 100 := (List.take_append_drop 100 fails).symm
    have htake : (fails.take 100).length = 100 := by
      rw [List.length_take]
      omega
    have hdrop : (fails.drop 100).length = 1 := by
      rw [List.length_drop]
      omega
    obtain ⟨r, hr⟩ : ∃ r, fails.drop 100 = [r] := List.length_eq_one.1 hdrop
    have hrfail : r.readRet ≠ 0 ∧ r.readRet ≠ AVERROR_EOF := by
      apply hfail
      rw [hsplit, hr]
      simp
    have hfirst := FileVideoProvider.readLoop_failed_run p (fails.take 100) st hrun
      (fun x hx => hfail x (List.mem_of_mem_take hx)) (by rw [htake, h0]; decide)
    rw [htake, h0] at hfirst
    have hgo : p.readLoop (fails ++ more) st
        = p.readLoop (r :: more) { st with try_time := 0 + ((100 : Nat) : Int) } := by
      rw [hsplit, hr, List.append_assoc]
      exact FileVideoProvider.readLoop_append p _ _ st _ hfirst hrun
    have hlast : p.readLoop (r :: more) { st with try_time := 0 + ((100 : Nat) : Int) }
        = some (LoopStatus.left, { st with try_time := 101 }) := by
      rw [FileVideoProvider.readLoop, if_neg (by simp [hrun]),
        FileVideoProvider.loopBody_failed p r _ hrfail]
      simp
    simp only [FileVideoProvider.producerRun, hgo, hlast]
  · intro r st1 status st2 hr h
    have hne : ¬ r.readRet = AVERROR_EOF := by
      rw [hr]
      decide
    simp only [FileVideoProvider.loopBody, hne, hr, if_false, ne_eq, not_true_eq_false] at h
    exact FileVideoProvider.afterRead_try_time p r st1 status st2 h

/-- One hundred failed reads leave the loop running with a counter of 100; the
next failed read ends `run` with `is_exit` set. -/
theorem FileVideoProvider.readLoop_gives_up_at_101st_failure_witness :
    FileVideoProvider.sample.readLoop (List.replicate 100 failedRead)
        (FileVideoProvider.initial (ThreadProvider.emptyRunning 100))
      = some (LoopStatus.running,
          { FileVideoProvider.initial (ThreadProvider.emptyRunning 100) with
              try_time := ((List.replicate 100 failedRead).length : Int) })
    ∧ FileVideoProvider.sample.producerRun (List.replicate 101 failedRead ++ [])
        (FileVideoProvider.initial (ThreadProvider.emptyRunning 100))
      = some (LoopStatus.left,
          { FileVideoProvider.initial (ThreadProvider.emptyRunning 100) with
              try_time := 101,
              provider := { ThreadProvider.emptyRunning 100 with is_exit := true } }) :=
  ⟨(FileVideoProvider.readLoop_gives_up_at_101st_failure FileVideoProvider.sample
      (FileVideoProvider.initial (ThreadProvider.emptyRunning 100)) rfl rfl
      (List.replicate 100 failedRead)
      (fun r hr => by rw [List.eq_of_mem_replicate hr]; decide)).1 (by decide),
   (FileVideoProvider.readLoop_gives_up_at_101st_failure FileVideoProvider.sample
      (FileVideoProvider.initial (ThreadProvider.emptyRunning 100)) rfl rfl
      (List.replicate 101 failedRead)
      (fun r hr => by rw [List.eq_of_mem_replicate hr]; decide)).2.1 (by decide) []⟩

/-! ## The receive loop of the producer -/

namespace FileVideoProvider

/-- Whatever the receive loop returns: the frames not received are still ready
in the decoder, in order; `frame_count` has grown by the number of frames
received; and the provider is unchanged or has taken exactly one push. -/
theorem receiveLoop_spec (p : FileVideoProvider) (t : Int) (ready : List DecodedFrame) :
    ∀ (frame_count : Int) (s : ThreadProvider) (status : LoopStatus) (st' : ProducerState),
      p.receiveLoop t ready frame_count s = some (status, st') →
      st'.ready <:+ ready
        ∧ st'.frame_count = frame_count + ((ready.length : Int) - (st'.ready.length : Int))
        ∧ (st'.provider = s ∨ ∃ d, s.push d = some st'.provider) := by
  induction ready with
  | nil =>
    intro fc s status st' h
    simp only [receiveLoop, Option.some.injEq, Prod.mk.injEq] at h
    rw [← h.2]
    exact ⟨List.suffix_refl _, by simp, Or.inl rfl⟩
  | cons frame rest ih =>
    intro fc s status st' h
    rw [receiveLoop] at h
    split at h
    · simp only [Option.some.injEq, Prod.mk.injEq] at h
      rw [← h.2]
      exact ⟨List.suffix_refl _, by simp, Or.inl rfl⟩
    · split at h
      · simp only [Option.some.injEq, Prod.mk.injEq] at h
        rw [← h.2]
        exact ⟨List.suffix_cons _ _, by simp only [List.length_cons]; push_cast; omega, Or.inl rfl⟩
      · split at h
        · obtain ⟨h1, h2, h3⟩ := ih _ _ _ _ h
          refine ⟨h1.trans (List.suffix_cons _ _), ?_, h3⟩
          rw [h2]
          simp only [List.length_cons]
          push_cast
          omega
        · split at h
          · simp only [Option.some.injEq, Prod.mk.injEq] at h
            rw [← h.2]
            exact ⟨List.suffix_cons _ _, by simp only [List.length_cons]; push_cast; omega,
              Or.inl rfl⟩
          · split at h
            · simp at h
            · rename_i s' hpush
              simp only [Option.some.injEq, Prod.mk.injEq] at h
              rw [← h.2]
              exact ⟨List.suffix_cons _ _, by simp only [List.length_cons]; push_cast; omega,
                Or.inr ⟨_, hpush⟩⟩

end FileVideoProvider

/-- C18 as stated fails: a packet that makes two convertible frames ready, with
frame interval 1, is followed by one push only; the second frame is still
ready in the decoder when the receive loop has ended. -/
theorem FileVideoProvider.receiveLoop_drains_counterexample :
    (FileVideoProvider.everyFrame.loopBody (videoPacket [frameWithPts 1, frameWithPts 2])
        (FileVideoProvider.initial (ThreadProvider.emptyRunning 100))).map
        (fun r => (r.1, r.2.frame_count, r.2.ready,
          r.2.provider.data_queue.map FramePtrWrapper.timestamp))
      = some (LoopStatus.running, 1, [frameWithPts 2], [1000])
    ∧ [frameWithPts 2] ≠ [] := by
  decide

/-- C18, amended: for every packet accepted by the decoder the receive loop
runs on the frames the decoder has ready; on a running provider it stops right
after the first frame when that frame is skipped by the frame interval or is
converted (and then pushed, the wait condition being false), and it goes on to
the next ready frame only when the conversion of a kept frame fails.  It never
pushes more than one frame, and the frames it has not received stay ready in
the decoder. -/
theorem FileVideoProvider.receiveLoop_stops_after_first_frame (p : FileVideoProvider) (t : Int)
    (frame : DecodedFrame) (rest : List DecodedFrame) (frame_count : Int) (s : ThreadProvider)
    (hrun : s.is_exit = false) :
    (∀ (r : ReadStep) (st : ProducerState), r.readRet = 0 →
        r.stream_index = p.videoStreamIndex → 0 ≤ r.sendRet →
        p.loopBody r st = p.receiveLoop 0 (st.ready ++ r.decoded) st.frame_count st.provider)
      ∧ (Int.tmod (frame_count + 1) p.frame_interval ≠ 0 →
          p.receiveLoop t (frame :: rest) frame_count s
            = some (LoopStatus.running,
                { try_time := t, frame_count := frame_count + 1, ready := rest, provider := s }))
      ∧ (Int.tmod (frame_count + 1) p.frame_interval = 0 → 0 < frame.sws_len →
          FileVideoProvider.waitCondition s = false →
          p.receiveLoop t (frame :: rest) frame_count s
            = (s.push (p.wrap (frame_count + 1) frame)).map
                (fun s' => (LoopStatus.running,
                  { try_time := t, frame_count := frame_count + 1, ready := rest,
                    provider := s' })))
      ∧ (Int.tmod (frame_count + 1) p.frame_interval = 0 → frame.sws_len ≤ 0 →
          p.receiveLoop t (frame :: rest) frame_count s
            = p.receiveLoop t rest (frame_count + 1) s)
      ∧ (∀ (status : LoopStatus) (st' : ProducerState),
          p.receiveLoop t (frame :: rest) frame_count s = some (status, st') →
          st'.ready <:+ frame :: rest
            ∧ st'.frame_count
                = frame_count + (((frame :: rest).length : Int) - (st'.ready.length : Int))
            ∧ (st'.provider = s ∨ ∃ d, s.push d = some st'.provider)) := by
  refine ⟨?_, ?_, ?_, ?_, ?_⟩
  · intro r st hr hidx hsend
    have hsend' : ¬ r.sendRet < 0 := by omega
    have h0 : ¬ (0 : Int) = AVERROR_EOF := by decide
    simp only [FileVideoProvider.loopBody, hr, h0, if_false, ne_eq, not_true_eq_false,
      FileVideoProvider.afterRead, hidx, hsend']
  · intro hmod
    rw [FileVideoProvider.receiveLoop]
    simp only [hrun, Bool.false_eq_true, if_false, hmod, ne_eq, not_false_eq_true, if_true]
  · intro hmod hconv hwait
    have hconv' : ¬ frame.sws_len ≤ 0 := by omega
    rw [FileVideoProvider.receiveLoop]
    simp only [hrun, Bool.false_eq_true, if_false, hmod, ne_eq, not_true_eq_false, hconv', hwait]
    cases s.push (p.wrap (frame_count + 1) frame) <;> rfl
  · intro hmod hconv
    rw [FileVideoProvider.receiveLoop]
    simp only [hrun, Bool.false_eq_true, if_false, hmod, ne_eq, not_true_eq_false, hconv, if_true]
  · intro status st' h
    exact FileVideoProvider.receiveLoop_spec p t (frame :: rest) frame_count s status st' h

/-- Two convertible frames ready, frame interval 1: the first is pushed and the
loop ends with the second still ready. -/
theorem FileVideoProvider.receiveLoop_stops_after_first_frame_witness :
    FileVideoProvider.everyFrame.receiveLoop 0 (frameWithPts 1 :: [frameWithPts 2]) 0
        (ThreadProvider.emptyRunning 100)
      = ((ThreadProvider.emptyRunning 100).push
            (FileVideoProvider.everyFrame.wrap (0 + 1) (frameWithPts 1))).map
          (fun s' => (LoopStatus.running,
            { try_time := 0, frame_count := 0 + 1, ready := [frameWithPts 2], provider := s' })) :=
  (FileVideoProvider.receiveLoop_stops_after_first_frame FileVideoProvider.everyFrame 0
    (frameWithPts 1) [frameWithPts 2] 0 (ThreadProvider.emptyRunning 100) rfl).2.2.1
    (by decide) (by decide) (by decide)

/-! ## The end of the producer -/

theorem consumerLoop_of_stopped (is_local_file : Bool) (begintime : Int)
    (encoded : FramePtrWrapper → Bool) (nows : List Int) (s : ThreadProvider)
    (h : s.is_exit = true) :
    consumerLoop is_local_file begintime encoded nows s = ([], s) := by
  cases nows with
  | nil => rfl
  | cons now rest => simp [consumerLoop, ThreadProvider.isRunning, h]

theorem FileVideoProvider.producerRun_left (p : FileVideoProvider) (script : List ReadStep)
    (st st' : ProducerState) (h : p.producerRun script st = some (LoopStatus.left, st')) :
    ∃ st1, p.readLoop script st = some (LoopStatus.left, st1)
      ∧ st' = { st1 with provider := { st1.provider with is_exit := true } } := by
  unfold FileVideoProvider.producerRun at h
  cases hrl : p.readLoop script st with
  | none =>
    rw [hrl] at h
    simp at h
  | some res =>
    obtain ⟨status, st1⟩ := res
    rw [hrl] at h
    cases status with
    | running => simp at h
    | left =>
      simp only [Option.some.injEq, Prod.mk.injEq, true_and] at h
      exact ⟨st1, rfl, h.symm⟩
    | waiting => simp at h

/-- C20: when the read loop ends by itself, `run` sets `is_exit` and leaves the
queue as it is; from that state, whatever the queue holds, `pop` and `top`
return the empty sentinel, `isRunning` is false and the consumer loop hands
nothing downstream; the `stop` that follows empties the queue.  A read at the
end of the file whose flush is refused ends the loop. -/
theorem FileVideoProvider.producerRun_end_strands_queue (p : FileVideoProvider)
    (script : List ReadStep) (st st' : ProducerState)
    (h : p.producerRun script st = some (LoopStatus.left, st')) :
    (∃ st1, p.readLoop script st = some (LoopStatus.left, st1)
        ∧ st'.provider = { st1.provider with is_exit := true }
        ∧ st'.provider.data_queue = st1.provider.data_queue)
      ∧ st'.provider.is_exit = true
      ∧ st'.provider.isRunning = false
      ∧ st'.provider.pop = (FramePtrWrapper.empty, st'.provider)
      ∧ st'.provider.top = (FramePtrWrapper.empty, st'.provider)
      ∧ (∀ (is_local_file : Bool) (begintime : Int) (encoded : FramePtrWrapper → Bool)
            (nows : List Int),
          consumerLoop is_local_file begintime encoded nows st'.provider = ([], st'.provider))
      ∧ st'.provider.stop.data_queue = []
      ∧ (∀ (r : ReadStep) (st0 : ProducerState), r.readRet = AVERROR_EOF → r.flushRet ≠ 0 →
          p.loopBody r st0 = some (LoopStatus.left, st0)) := by
  obtain ⟨st1, hrl, hst⟩ := FileVideoProvider.producerRun_left p script st st' h
  have hexit : st'.provider.is_exit = true := by rw [hst]
  refine ⟨⟨st1, hrl, by rw [hst], by rw [hst]⟩, hexit, ?_, ?_, ?_, ?_, rfl, ?_⟩
  · simp [ThreadProvider.isRunning, hexit]
  · simp [ThreadProvider.pop, hexit]
  · simp [ThreadProvider.top, hexit]
  · intro l b enc nows
    exact consumerLoop_of_stopped l b enc nows _ hexit
  · intro r st0 hr hflush
    simp [FileVideoProvider.loopBody, hr, hflush]

/-- One frame is pushed, then the file ends: the frame is still queued, and a
pop returns the sentinel. -/
theorem FileVideoProvider.producerRun_end_strands_queue_witness :
    FileVideoProvider.everyFrame.producerRun [videoPacket [frameWithPts 1], endOfFile]
        (FileVideoProvider.initial (ThreadProvider.emptyRunning 100))
      = some (LoopStatus.left, strandedState)
    ∧ strandedState.provider.data_queue.map FramePtrWrapper.timestamp = [1000]
    ∧ strandedState.provider.pop = (FramePtrWrapper.empty, strandedState.provider) :=
  ⟨by decide, by decide,
   (FileVideoProvider.producerRun_end_strands_queue FileVideoProvider.everyFrame
      [videoPacket [frameWithPts 1], endOfFile]
      (FileVideoProvider.initial (ThreadProvider.emptyRunning 100)) strandedState
      (by decide)).2.2.2.1⟩

/-! ## The rounding error of the timestamp arithmetic -/

/-- Rounding 0 gives 0. -/
theorem Double.round_zero (q : Nat) (x : Double) (h : Double.round 0 q = some x) :
    x = { mantissa := 0, exponent := 0 } := by
  unfold Double.round at h
  split at h
  · simp at h
  · simp only [if_true, Option.some.injEq] at h
    exact h.symm

/-- A presentation time of 0 gives the product 0, whatever the time base. -/
theorem ptsToMicrosDouble_zero (num den t : Int) (h : ptsToMicrosDouble num den 0 = some t) :
    t = 0 := by
  unfold ptsToMicrosDouble at h
  cases ha : av_q2d num den with
  | none => simp [ha] at h
  | some a =>
    cases hc : Double.ofInt 1000000 with
    | none => simp [ha, hc] at h
    | some c =>
      cases hb : Double.mul a c with
      | none => simp [ha, hc, hb] at h
      | some b =>
        cases hx : Double.ofInt 0 with
        | none => simp [ha, hc, hb, hx] at h
        | some x =>
          have hx0 := Double.round_zero 1 x hx
          cases hr : Double.mul b x with
          | none => simp [ha, hc, hb, hx, hr] at h
          | some r =>
            have hr0 : r = { mantissa := 0, exponent := 0 } := by
              apply Double.round_zero (b.den * x.den)
              rw [← hr, Double.mul, hx0]
              simp [Double.num]
            simp only [ha, hc, hb, hx, hr, Option.some_bind, hr0] at h
            have h1 : Double.toInt64 { mantissa := 0, exponent := 0 } = some 0 := by decide
            rw [h1] at h
            simp only [Option.some.injEq] at h
            exact h.symm

/-- The value of a `double` is its numerator over its denominator. -/
theorem Double.val_eq (x : Double) : x.val = (x.num : ℚ) / (x.den : ℚ) := by
  unfold Double.val Double.num Double.den
  split
  · next h =>
    have he : x.exponent = (x.exponent.toNat : Int) := (Int.toNat_of_nonneg h).symm
    push_cast
    rw [div_one]
    congr 1
    conv_lhs => rw [he]
    rw [zpow_natCast]
  · next h =>
    push_neg at h
    have he : x.exponent = -((-x.exponent).toNat : Int) := by
      rw [Int.toNat_of_nonneg (by omega)]
      ring
    push_cast
    conv_lhs => rw [he]
    rw [zpow_neg, zpow_natCast, div_eq_mul_inv]

/-- With enough fuel, `log2Fuel` is the integer part of the binary logarithm. -/
theorem log2Fuel_spec : ∀ (fuel n : Nat), 1 ≤ n → n < 2 ^ fuel →
    2 ^ log2Fuel fuel n ≤ n ∧ n < 2 ^ (log2Fuel fuel n + 1) := by
  intro fuel
  induction fuel with
  | zero =>
    intro n h1 h2
    simp at h2
    omega
  | succ fuel ih =>
    intro n h1 h2
    unfold log2Fuel
    split
    · next h =>
      have h3 : 1 ≤ n / 2 := by omega
      have h4 : n / 2 < 2 ^ fuel := by
        rw [pow_succ] at h2
        omega
      obtain ⟨ha, hb⟩ := ih (n / 2) h3 h4
      constructor
      · rw [pow_succ]
        omega
      · rw [pow_succ]
        omega
    · next h =>
      simp
      omega

/-- `2 ^ floorLog2 n ≤ n < 2 ^ (floorLog2 n + 1)`. -/
theorem floorLog2_spec (n : Nat) (h : 1 ≤ n) :
    2 ^ floorLog2 n ≤ n ∧ n < 2 ^ (floorLog2 n + 1) :=
  log2Fuel_spec n n h (Nat.lt_two_pow n)

/-- `geTwoPow` decides `2 ^ l ≤ n / d`. -/
theorem geTwoPow_iff (n d : Nat) (l : Int) (hd : 0 < d) :
    geTwoPow n d l = true ↔ (2 : ℚ) ^ l ≤ (n : ℚ) / d := by
  have hdq : (0 : ℚ) < d := by exact_mod_cast hd
  unfold geTwoPow
  split
  · next h =>
    have he : l = (l.toNat : Int) := (Int.toNat_of_nonneg h).symm
    rw [decide_eq_true_iff, le_div_iff₀ hdq]
    conv_rhs => rw [he]
    rw [zpow_natCast]
    constructor
    · intro h1
      have : ((d * 2 ^ l.toNat : Nat) : ℚ) ≤ n := by exact_mod_cast h1
      push_cast at this
      linarith
    · intro h1
      have : ((d * 2 ^ l.toNat : Nat) : ℚ) ≤ n := by
        push_cast
        linarith
      exact_mod_cast this
  · next h =>
    push_neg at h
    have he : l = -((-l).toNat : Int) := by
      rw [Int.toNat_of_nonneg (by omega)]
      ring
    rw [decide_eq_true_iff, le_div_iff₀ hdq]
    conv_rhs => rw [he]
    rw [zpow_neg, zpow_natCast]
    have hp : (0 : ℚ) < 2 ^ (-l).toNat := by positivity
    rw [inv_mul_le_iff₀ hp]
    constructor
    · intro h1
      have : ((d : Nat) : ℚ) ≤ ((n * 2 ^ (-l).toNat : Nat) : ℚ) := by exact_mod_cast h1
      push_cast at this
      linarith
    · intro h1
      have : ((d : Nat) : ℚ) ≤ ((n * 2 ^ (-l).toNat : Nat) : ℚ) := by
        push_cast
        linarith
      exact_mod_cast this

/-- `2 ^ l ≤ n / d < 2 ^ (l + 1)` for `l = floorLog2Quot n d`. -/
theorem floorLog2Quot_spec (n d : Nat) (hn : 1 ≤ n) (hd : 1 ≤ d) :
    (2 : ℚ) ^ floorLog2Quot n d ≤ (n : ℚ) / d ∧ (n : ℚ) / d < (2 : ℚ) ^ (floorLog2Quot n d + 1) := by
  have hdq : (0 : ℚ) < d := by exact_mod_cast hd
  obtain ⟨ha1, ha2⟩ := floorLog2_spec n hn
  obtain ⟨hb1, hb2⟩ := floorLog2_spec d hd
  have ha1q : (2 : ℚ) ^ (floorLog2 n : Int) ≤ n := by
    rw [zpow_natCast]
    exact_mod_cast ha1
  have ha2q : (n : ℚ) < (2 : ℚ) ^ ((floorLog2 n : Int) + 1) := by
    have : (n : ℚ) < ((2 ^ (floorLog2 n + 1) : Nat) : ℚ) := by exact_mod_cast ha2
    push_cast at this
    rw [show ((floorLog2 n : Int) + 1) = ((floorLog2 n + 1 : Nat) : Int) by push_cast; ring,
      zpow_natCast]
    exact this
  have hb1q : (2 : ℚ) ^ (floorLog2 d : Int) ≤ d := by
    rw [zpow_natCast]
    exact_mod_cast hb1
  have hb2q : (d : ℚ) < (2 : ℚ) ^ ((floorLog2 d : Int) + 1) := by
    have : (d : ℚ) < ((2 ^ (floorLog2 d + 1) : Nat) : ℚ) := by exact_mod_cast hb2
    push_cast at this
    rw [show ((floorLog2 d : Int) + 1) = ((floorLog2 d + 1 : Nat) : Int) by push_cast; ring,
      zpow_natCast]
    exact this
  have h2 : (0 : ℚ) < 2 := by norm_num
  have h2ne : (2 : ℚ) ≠ 0 := by norm_num
  unfold floorLog2Quot
  split
  · next h =>
    rw [geTwoPow_iff n d _ hd] at h
    refine ⟨h, ?_⟩
    rw [div_lt_iff₀ hdq]
    calc (n : ℚ) < (2 : ℚ) ^ ((floorLog2 n : Int) + 1) := ha2q
      _ = (2 : ℚ) ^ ((floorLog2 n : Int) - (floorLog2 d : Int) + 1) * (2 : ℚ) ^ (floorLog2 d : Int) := by
          rw [← zpow_add₀ h2ne]
          congr 1
          ring
      _ ≤ (2 : ℚ) ^ ((floorLog2 n : Int) - (floorLog2 d : Int) + 1) * d := by
          apply mul_le_mul_of_nonneg_left hb1q
          positivity
  · next h =>
    rw [geTwoPow_iff n d _ hd] at h
    push_neg at h
    constructor
    · rw [le_div_iff₀ hdq]
      calc (2 : ℚ) ^ ((floorLog2 n : Int) - (floorLog2 d : Int) - 1) * d
          ≤ (2 : ℚ) ^ ((floorLog2 n : Int) - (floorLog2 d : Int) - 1)
              * (2 : ℚ) ^ ((floorLog2 d : Int) + 1) := by
            apply mul_le_mul_of_nonneg_left (le_of_lt hb2q)
            positivity
        _ = (2 : ℚ) ^ (floorLog2 n : Int) := by
            rw [← zpow_add₀ h2ne]
            congr 1
            ring
        _ ≤ n := ha1q
    · rw [show (floorLog2 n : Int) - (floorLog2 d : Int) - 1 + 1
          = (floorLog2 n : Int) - (floorLog2 d : Int) by ring]
      exact h

/-- Rounding to the nearest integer moves a quotient by at most one half. -/
theorem roundNearestEven_spec (N D : Nat) (hD : 0 < D) :
    |((roundNearestEven N D : Nat) : ℚ) - (N : ℚ) / D| ≤ 1 / 2 := by
  have hDq : (0 : ℚ) < D := by exact_mod_cast hD
  have hdm : ((D * (N / D) + N % D : Nat) : ℚ) = N := by
    exact_mod_cast Nat.div_add_mod N D
  push_cast at hdm
  have hmod : N % D < D := Nat.mod_lt N hD
  have hmodq : ((N % D : Nat) : ℚ) < D := by exact_mod_cast hmod
  have hmod0 : (0 : ℚ) ≤ ((N % D : Nat) : ℚ) := by positivity
  have key : (N : ℚ) / D = ((N / D : Nat) : ℚ) + ((N % D : Nat) : ℚ) / D := by
    field_simp
    linarith
  have hfrac0 : (0 : ℚ) ≤ ((N % D : Nat) : ℚ) / D := by positivity
  have hfrac1 : ((N % D : Nat) : ℚ) / D < 1 := by
    rw [div_lt_one hDq]
    exact hmodq
  unfold roundNearestEven
  split
  · next h =>
    have hq : (2 : ℚ) * ((N % D : Nat) : ℚ) < D := by exact_mod_cast h
    have : ((N % D : Nat) : ℚ) / D < 1 / 2 := by
      rw [div_lt_iff₀ hDq]
      linarith
    rw [key, abs_le]
    constructor <;> linarith
  · next h =>
    split
    · next h' =>
      have hq : (D : ℚ) < (2 : ℚ) * ((N % D : Nat) : ℚ) := by exact_mod_cast h'
      have : (1 : ℚ) / 2 < ((N % D : Nat) : ℚ) / D := by
        rw [lt_div_iff₀ hDq]
        linarith
      rw [key, abs_le]
      push_cast
      constructor <;> linarith
    · next h' =>
      have heq : 2 * (N % D) = D := by omega
      have hq : (2 : ℚ) * ((N % D : Nat) : ℚ) = D := by exact_mod_cast heq
      have : ((N % D : Nat) : ℚ) / D = 1 / 2 := by
        rw [div_eq_iff (ne_of_gt hDq)]
        linarith
      split
      · rw [key, abs_le]
        constructor <;> linarith
      · rw [key, abs_le]
        push_cast
        constructor <;> linarith

/-- Rounding in units of `2 ^ e` moves a quotient by at most half a unit. -/
theorem Double.roundScaled_spec (n q : Nat) (e : Int) (hq : 0 < q) :
    |((Double.roundScaled n q e : Nat) : ℚ) * (2 : ℚ) ^ e - (n : ℚ) / q| ≤ (2 : ℚ) ^ e / 2 := by
  unfold Double.roundScaled
  have hqq : (0 : ℚ) < q := by exact_mod_cast hq
  have hpos : (0 : ℚ) < (2 : ℚ) ^ e := by positivity
  split
  · next h =>
    have he : e = (e.toNat : Int) := (Int.toNat_of_nonneg h).symm
    have hE : (0 : ℚ) < (2 : ℚ) ^ e.toNat := by positivity
    have hs := roundNearestEven_spec n (q * 2 ^ e.toNat) (by positivity)
    push_cast at hs
    have hz : (2 : ℚ) ^ e = (2 : ℚ) ^ e.toNat := by
      conv_lhs => rw [he]
      rw [zpow_natCast]
    rw [hz]
    have hx : (n : ℚ) / q = (n : ℚ) / (q * 2 ^ e.toNat) * 2 ^ e.toNat := by
      field_simp
      ring
    rw [hx, ← sub_mul, abs_mul, abs_of_pos hE]
    calc _ ≤ 1 / 2 * (2 : ℚ) ^ e.toNat := mul_le_mul_of_nonneg_right hs (le_of_lt hE)
      _ = (2 : ℚ) ^ e.toNat / 2 := by ring
  · next h =>
    push_neg at h
    have he : e = -((-e).toNat : Int) := by
      rw [Int.toNat_of_nonneg (by omega)]
      ring
    have hE : (0 : ℚ) < (2 : ℚ) ^ (-e).toNat := by positivity
    have hs := roundNearestEven_spec (n * 2 ^ (-e).toNat) q hq
    push_cast at hs
    have hz : (2 : ℚ) ^ e = ((2 : ℚ) ^ (-e).toNat)⁻¹ := by
      conv_lhs => rw [he]
      rw [zpow_neg, zpow_natCast]
    rw [hz]
    have hx : (n : ℚ) / q = (n : ℚ) * 2 ^ (-e).toNat / q * ((2 : ℚ) ^ (-e).toNat)⁻¹ := by
      field_simp
      ring
    rw [hx, ← sub_mul, abs_mul, abs_of_pos (inv_pos.mpr hE)]
    calc _ ≤ 1 / 2 * ((2 : ℚ) ^ (-e).toNat)⁻¹ :=
          mul_le_mul_of_nonneg_right hs (le_of_lt (inv_pos.mpr hE))
      _ = ((2 : ℚ) ^ (-e).toNat)⁻¹ / 2 := by ring

/-- The rounded value is within half a unit in the last place of `p / q`. -/
theorem Double.round_spec (p : Int) (q : Nat) (x : Double) (hp : p ≠ 0)
    (h : Double.round p q = some x) :
    x.exponent = Double.ulpExponent p.natAbs q
      ∧ |x.val - (p : ℚ) / q| ≤ (2 : ℚ) ^ x.exponent / 2 := by
  unfold Double.round at h
  by_cases hq : q = 0
  · simp [hq] at h
  · rw [if_neg hq, if_neg hp] at h
    simp only at h
    by_cases hov : 0 ≤ Double.ulpExponent p.natAbs q
        ∧ 2 ^ 1024 ≤ Double.roundScaled p.natAbs q (Double.ulpExponent p.natAbs q)
            * 2 ^ (Double.ulpExponent p.natAbs q).toNat
    · rw [if_pos hov] at h
      exact absurd h (by simp)
    · rw [if_neg hov, Option.some.injEq] at h
      have hq' : 0 < q := Nat.pos_of_ne_zero hq
      have hs := Double.roundScaled_spec p.natAbs q (Double.ulpExponent p.natAbs q) hq'
      rw [← h]
      refine ⟨rfl, ?_⟩
      unfold Double.val
      simp only
      by_cases hneg : p < 0
      · rw [if_pos hneg]
        have hpa : (p : ℚ) = -((p.natAbs : Nat) : ℚ) := by
          have : (p : Int) = -((p.natAbs : Nat) : Int) := by omega
          exact_mod_cast this
        rw [hpa]
        push_cast
        rw [neg_mul, neg_div, ← neg_sub', abs_neg]
        exact hs
      · rw [if_neg hneg]
        have hpa : (p : ℚ) = ((p.natAbs : Nat) : ℚ) := by
          have h1 : (p : Int) = ((p.natAbs : Nat) : Int) := by omega
          calc (p : ℚ) = (((p.natAbs : Nat) : Int) : ℚ) := by rw [← h1]
            _ = ((p.natAbs : Nat) : ℚ) := Int.cast_natCast _
        rw [hpa]
        push_cast
        exact hs

/-- In the normal range the relative rounding error is at most `2 ^ (-53)`. -/
theorem Double.round_rel (p : Int) (q : Nat) (x : Double)
    (h : Double.round p q = some x) (hr : (2 : ℚ) ^ (-1022 : Int) ≤ |(p : ℚ) / q|) :
    |x.val - (p : ℚ) / q| ≤ (2 : ℚ) ^ (-53 : Int) * |(p : ℚ) / q| := by
  have hpos : (0 : ℚ) < |(p : ℚ) / q| := lt_of_lt_of_le (by positivity) hr
  have hne : (p : ℚ) / q ≠ 0 := abs_pos.mp hpos
  have hp : p ≠ 0 := by
    intro h0
    apply hne
    rw [h0]
    simp
  have hq : q ≠ 0 := by
    intro h0
    apply hne
    rw [h0]
    simp
  obtain ⟨he, herr⟩ := Double.round_spec p q x hp h
  have hn1 : 1 ≤ p.natAbs := by omega
  have hq1 : 1 ≤ q := by omega
  obtain ⟨hl1, hl2⟩ := floorLog2Quot_spec p.natAbs q hn1 hq1
  have habs : |(p : ℚ) / q| = ((p.natAbs : Nat) : ℚ) / q := by
    rw [abs_div, Nat.abs_cast, Nat.cast_natAbs, Int.cast_abs]
  rw [habs] at hr ⊢
  have h2 : (1 : ℚ) < 2 := by norm_num
  have hlt : (-1022 : Int) < floorLog2Quot p.natAbs q + 1 :=
    (zpow_lt_zpow_iff_right₀ h2).mp (lt_of_le_of_lt hr hl2)
  have hexp : x.exponent = floorLog2Quot p.natAbs q - 52 := by
    rw [he, Double.ulpExponent]
    apply max_eq_left
    omega
  calc |x.val - (p : ℚ) / q| ≤ (2 : ℚ) ^ x.exponent / 2 := herr
    _ = (2 : ℚ) ^ (-53 : Int) * (2 : ℚ) ^ floorLog2Quot p.natAbs q := by
        rw [hexp, ← zpow_add₀ (by norm_num : (2 : ℚ) ≠ 0),
          show (-53 : Int) + floorLog2Quot p.natAbs q = (floorLog2Quot p.natAbs q - 52) + (-1) by
            ring,
          zpow_add₀ (by norm_num : (2 : ℚ) ≠ 0)]
        norm_num
        ring
    _ ≤ (2 : ℚ) ^ (-53 : Int) * (((p.natAbs : Nat) : ℚ) / q) := by
        apply mul_le_mul_of_nonneg_left hl1
        positivity

/-- A quotient by 1 is not changed by the rounding. -/
theorem roundNearestEven_one (N : Nat) : roundNearestEven N 1 = N := by
  simp [roundNearestEven, Nat.mod_one]

/-- An integer below `2 ^ 53` in magnitude converts to `double` exactly. -/
theorem Double.ofInt_exact (i : Int) (x : Double) (hi : |i| < 2 ^ 53)
    (h : Double.ofInt i = some x) : x.val = i := by
  unfold Double.ofInt at h
  by_cases h0 : i = 0
  · rw [h0] at h
    have := Double.round_zero 1 x h
    rw [this, h0]
    simp [Double.val]
  · have hn1 : 1 ≤ i.natAbs := by omega
    obtain ⟨hl1, hl2⟩ := floorLog2Quot_spec i.natAbs 1 hn1 (le_refl 1)
    have hnat : ((i.natAbs : Nat) : ℚ) < (2 : ℚ) ^ (53 : Int) := by
      obtain ⟨hi1, hi2⟩ := abs_lt.mp hi
      have h3 : i.natAbs < 2 ^ 53 := by omega
      have h4 : ((i.natAbs : Nat) : ℚ) < ((2 ^ 53 : Nat) : ℚ) := by exact_mod_cast h3
      rw [show ((53 : Int)) = ((53 : Nat) : Int) by norm_num, zpow_natCast]
      push_cast at h4
      exact h4
    have h2 : (1 : ℚ) < 2 := by norm_num
    have hl : floorLog2Quot i.natAbs 1 < 53 := by
      apply (zpow_lt_zpow_iff_right₀ h2).mp
      calc (2 : ℚ) ^ floorLog2Quot i.natAbs 1 ≤ ((i.natAbs : Nat) : ℚ) / ((1 : Nat) : ℚ) := hl1
        _ = ((i.natAbs : Nat) : ℚ) := by simp
        _ < _ := hnat
    have he0 : Double.ulpExponent i.natAbs 1 ≤ 0 := by
      unfold Double.ulpExponent
      apply max_le <;> omega
    unfold Double.round at h
    rw [if_neg (by decide), if_neg h0] at h
    simp only at h
    by_cases hov : 0 ≤ Double.ulpExponent i.natAbs 1
        ∧ 2 ^ 1024 ≤ Double.roundScaled i.natAbs 1 (Double.ulpExponent i.natAbs 1)
            * 2 ^ (Double.ulpExponent i.natAbs 1).toNat
    · rw [if_pos hov] at h
      exact absurd h (by simp)
    · rw [if_neg hov, Option.some.injEq] at h
      have hm : ((Double.roundScaled i.natAbs 1 (Double.ulpExponent i.natAbs 1) : Nat) : ℚ)
          * (2 : ℚ) ^ Double.ulpExponent i.natAbs 1 = ((i.natAbs : Nat) : ℚ) := by
        unfold Double.roundScaled
        by_cases hz : 0 ≤ Double.ulpExponent i.natAbs 1
        · have hzz : Double.ulpExponent i.natAbs 1 = 0 := le_antisymm he0 hz
          rw [if_pos hz, hzz]
          simp [roundNearestEven_one]
        · rw [if_neg hz, roundNearestEven_one]
          obtain ⟨k, hk⟩ : ∃ k : Nat, Double.ulpExponent i.natAbs 1 = -(k : Int) :=
            ⟨(-Double.ulpExponent i.natAbs 1).toNat, by
              rw [Int.toNat_of_nonneg (by omega)]
              ring⟩
          rw [hk, neg_neg, Int.toNat_ofNat]
          push_cast
          rw [zpow_neg, zpow_natCast, mul_assoc, mul_inv_cancel₀ (by positivity), mul_one]
      rw [← h]
      unfold Double.val
      simp only
      by_cases hneg : i < 0
      · rw [if_pos hneg]
        push_cast
        rw [neg_mul, hm]
        have h1 : (i : Int) = -((i.natAbs : Nat) : Int) := by omega
        calc -((i.natAbs : Nat) : ℚ) = ((-((i.natAbs : Nat) : Int) : Int) : ℚ) := by
              rw [Int.cast_neg, Int.cast_natCast]
          _ = (i : ℚ) := by rw [← h1]
      · rw [if_neg hneg]
        push_cast
        rw [hm]
        have h1 : (i : Int) = ((i.natAbs : Nat) : Int) := by omega
        calc ((i.natAbs : Nat) : ℚ) = (((i.natAbs : Nat) : Int) : ℚ) := (Int.cast_natCast _).symm
          _ = (i : ℚ) := by rw [← h1]

/-- The truncating quotient is less than 1 away from the exact quotient. -/
theorem tdiv_close (a b : Int) (hb : 0 < b) : |((a.tdiv b : Int) : ℚ) - (a : ℚ) / b| < 1 := by
  have hbq : (0 : ℚ) < b := by exact_mod_cast hb
  have hmod := Int.tdiv_add_tmod a b
  have hlt := Int.tmod_lt_of_pos a hb
  have hgt : -b < a.tmod b := by
    have h1 := Int.tmod_lt_of_pos (-a) hb
    have h2 : (-a).tmod b = -(a.tmod b) := by
      rw [Int.tmod_def, Int.tmod_def, Int.neg_tdiv]
      ring
    omega
  have hq : (a : ℚ) = b * ((a.tdiv b : Int) : ℚ) + ((a.tmod b : Int) : ℚ) := by
    exact_mod_cast hmod.symm
  have h3 : (a : ℚ) / b = ((a.tdiv b : Int) : ℚ) + ((a.tmod b : Int) : ℚ) / b := by
    field_simp
    linarith
  have h4 : ((a.tmod b : Int) : ℚ) / b < 1 := by
    rw [div_lt_one hbq]
    exact_mod_cast hlt
  have h5 : -1 < ((a.tmod b : Int) : ℚ) / b := by
    rw [lt_div_iff₀ hbq]
    have : ((-b : Int) : ℚ) < ((a.tmod b : Int) : ℚ) := by exact_mod_cast hgt
    push_cast at this
    linarith
  rw [h3, abs_lt]
  constructor <;> linarith

/-- The denominator of a `double` is positive. -/
theorem Double.den_pos (x : Double) : 0 < x.den := by
  unfold Double.den
  split <;> positivity

/-- The conversion to `int64_t` moves a value by less than 1. -/
theorem Double.toInt64_close (x : Double) (t : Int) (h : Double.toInt64 x = some t) :
    |(t : ℚ) - x.val| < 1 := by
  unfold Double.toInt64 at h
  split at h
  · simp only [Option.some.injEq] at h
    rw [← h, Double.val_eq]
    have := tdiv_close x.num (x.den : Int) (by exact_mod_cast Double.den_pos x)
    simpa using this
  · simp at h

/-- The relative error of a product in the normal range is at most `2 ^ (-53)`. -/
theorem Double.mul_rel (x y z : Double) (h : Double.mul x y = some z)
    (hr : (2 : ℚ) ^ (-1022 : Int) ≤ |x.val * y.val|) :
    |z.val - x.val * y.val| ≤ (2 : ℚ) ^ (-53 : Int) * |x.val * y.val| := by
  unfold Double.mul at h
  have hv : ((x.num * y.num : Int) : ℚ) / ((x.den * y.den : Nat) : ℚ) = x.val * y.val := by
    rw [Double.val_eq x, Double.val_eq y]
    push_cast
    rw [div_mul_div_comm]
  have hrel := Double.round_rel _ _ z h (by rw [hv]; exact hr)
  rw [hv] at hrel
  exact hrel

/-- The numerator of a `double` has the sign of its mantissa. -/
theorem Double.num_sign (y : Double) :
    (y.mantissa < 0 → y.num < 0) ∧ (0 < y.mantissa → 0 < y.num) := by
  unfold Double.num
  split
  · constructor
    · intro h
      exact mul_neg_of_neg_of_pos h (by positivity)
    · intro h
      exact mul_pos h (by positivity)
  · exact ⟨id, id⟩

/-- The relative error of a quotient in the normal range is at most `2 ^ (-53)`. -/
theorem Double.div_rel (x y z : Double) (h : Double.div x y = some z)
    (hr : (2 : ℚ) ^ (-1022 : Int) ≤ |x.val / y.val|) :
    |z.val - x.val / y.val| ≤ (2 : ℚ) ^ (-53 : Int) * |x.val / y.val| := by
  unfold Double.div at h
  by_cases hm : y.mantissa = 0
  · rw [if_pos hm] at h
    exact absurd h (by simp)
  · rw [if_neg hm] at h
    have hxd : (0 : ℚ) < (x.den : ℚ) := by exact_mod_cast Double.den_pos x
    have hyd : (0 : ℚ) < (y.den : ℚ) := by exact_mod_cast Double.den_pos y
    have hv : (((if y.mantissa < 0 then -(x.num * y.den) else x.num * y.den : Int)) : ℚ)
        / ((x.den * y.num.natAbs : Nat) : ℚ) = x.val / y.val := by
      rw [Double.val_eq x, Double.val_eq y]
      by_cases hneg : y.mantissa < 0
      · have hyn : y.num < 0 := (Double.num_sign y).1 hneg
        have hynq : (y.num : ℚ) < 0 := by exact_mod_cast hyn
        have habs : ((y.num.natAbs : Nat) : ℚ) = -(y.num : ℚ) := by
          have h1 : ((y.num.natAbs : Nat) : Int) = -y.num := by omega
          calc ((y.num.natAbs : Nat) : ℚ) = (((y.num.natAbs : Nat) : Int) : ℚ) :=
                (Int.cast_natCast _).symm
            _ = ((-y.num : Int) : ℚ) := by rw [h1]
            _ = -(y.num : ℚ) := Int.cast_neg _
        rw [if_pos hneg, Nat.cast_mul, habs]
        push_cast
        field_simp
      · have hpos : 0 < y.mantissa := by omega
        have hyn : 0 < y.num := (Double.num_sign y).2 hpos
        have hynq : (0 : ℚ) < (y.num : ℚ) := by exact_mod_cast hyn
        have habs : ((y.num.natAbs : Nat) : ℚ) = (y.num : ℚ) := by
          have h1 : ((y.num.natAbs : Nat) : Int) = y.num := by omega
          calc ((y.num.natAbs : Nat) : ℚ) = (((y.num.natAbs : Nat) : Int) : ℚ) :=
                (Int.cast_natCast _).symm
            _ = (y.num : ℚ) := by rw [h1]
        rw [if_neg hneg, Nat.cast_mul, habs]
        push_cast
        field_simp
    have hrel := Double.round_rel _ _ z h (by rw [hv]; exact hr)
    rw [hv] at hrel
    exact hrel

/-- Relative errors of two factors combine to that of the product. -/
theorem rel_mul (x X y Y α β : ℚ) (hα : 0 ≤ α)
    (h1 : |x - X| ≤ α * |X|) (h2 : |y - Y| ≤ β * |Y|) :
    |x * y - X * Y| ≤ (α + β + α * β) * |X * Y| := by
  have hX : 0 ≤ |X| := abs_nonneg X
  have hY : 0 ≤ |Y| := abs_nonneg Y
  have hβ : 0 ≤ β * |Y| := le_trans (abs_nonneg _) h2
  have e : x * y - X * Y = (x - X) * (y - Y) + X * (y - Y) + (x - X) * Y := by ring
  rw [e, abs_mul X Y]
  calc |(x - X) * (y - Y) + X * (y - Y) + (x - X) * Y|
      ≤ |(x - X) * (y - Y)| + |X * (y - Y)| + |(x - X) * Y| := abs_add_three _ _ _
    _ = |x - X| * |y - Y| + |X| * |y - Y| + |x - X| * |Y| := by
        rw [abs_mul, abs_mul, abs_mul]
    _ ≤ (α * |X|) * (β * |Y|) + |X| * (β * |Y|) + (α * |X|) * |Y| := by
        have t1 : |x - X| * |y - Y| ≤ (α * |X|) * (β * |Y|) :=
          mul_le_mul h1 h2 (abs_nonneg _) (mul_nonneg hα hX)
        have t2 : |X| * |y - Y| ≤ |X| * (β * |Y|) := mul_le_mul_of_nonneg_left h2 hX
        have t3 : |x - X| * |Y| ≤ (α * |X|) * |Y| := mul_le_mul_of_nonneg_right h1 hY
        linarith
    _ = (α + β + α * β) * (|X| * |Y|) := by ring

/-- A relative error followed by a rounding. -/
theorem rel_step (X x z α u : ℚ) (hu : 0 ≤ u)
    (h1 : |x - X| ≤ α * |X|) (h2 : |z - x| ≤ u * |x|) :
    |z - X| ≤ (α + u + α * u) * |X| := by
  have hx : |x| ≤ |X| + α * |X| := by
    calc |x| = |X + (x - X)| := by ring_nf
      _ ≤ |X| + |x - X| := abs_add _ _
      _ ≤ |X| + α * |X| := by linarith
  have e : z - X = (z - x) + (x - X) := by ring
  rw [e]
  calc |(z - x) + (x - X)| ≤ |z - x| + |x - X| := abs_add _ _
    _ ≤ u * |x| + α * |X| := by linarith
    _ ≤ u * (|X| + α * |X|) + α * |X| := by
        have := mul_le_mul_of_nonneg_left hx hu
        linarith
    _ = (α + u + α * u) * |X| := by ring

/-- A value with relative error at most one half keeps half its magnitude. -/
theorem rel_lower (X x α : ℚ) (hα : α ≤ 1 / 2) (h1 : |x - X| ≤ α * |X|) :
    |X| / 2 ≤ |x| := by
  have hX : 0 ≤ |X| := abs_nonneg X
  have h2 : |X| ≤ |x| + |x - X| := by
    calc |X| = |x - (x - X)| := by ring_nf
      _ ≤ |x| + |x - X| := abs_sub _ _
  have h3 : α * |X| ≤ 1 / 2 * |X| := mul_le_mul_of_nonneg_right hα hX
  linarith

/-- A time base with numerator 0 gives the product 0. -/
theorem ptsToMicrosDouble_num_zero (den pts t : Int)
    (h : ptsToMicrosDouble 0 den pts = some t) : t = 0 := by
  unfold ptsToMicrosDouble av_q2d at h
  simp only [Option.bind_eq_some] at h
  obtain ⟨a, ⟨n, hn, d, hd, ha⟩, c, hc, b, hb, x, hx, r, hr, ht⟩ := h
  have hn0 := Double.round_zero 1 n hn
  have ha0 : a = { mantissa := 0, exponent := 0 } := by
    unfold Double.div at ha
    by_cases hm : d.mantissa = 0
    · rw [if_pos hm] at ha
      exact absurd ha (by simp)
    · rw [if_neg hm, hn0] at ha
      apply Double.round_zero ((({ mantissa := 0, exponent := 0 } : Double).den) * d.num.natAbs)
      rw [← ha]
      congr 1
      simp [Double.num]
  have hb0 : b = { mantissa := 0, exponent := 0 } := by
    apply Double.round_zero (a.den * c.den)
    rw [← hb, Double.mul, ha0]
    simp [Double.num]
  have hr0 : r = { mantissa := 0, exponent := 0 } := by
    apply Double.round_zero (b.den * x.den)
    rw [← hr, Double.mul, hb0]
    simp [Double.num]
  rw [hr0] at ht
  have h1 : Double.toInt64 { mantissa := 0, exponent := 0 } = some 0 := by decide
  rw [h1] at ht
  simp only [Option.some.injEq] at ht
  exact ht.symm

/-- For a time base with 32-bit members and an exact product of at most 2 ^ 50
in magnitude, the truncated double-precision product is less than 2 away from
`pts * num * 1000000 / den`. -/
theorem ptsToMicrosDouble_close (num den pts t : Int)
    (hnumb : |num| ≤ 2 ^ 31) (hden : den ≠ 0) (hdenb : |den| ≤ 2 ^ 31)
    (hE : |pts * num * 1000000| ≤ 2 ^ 50 * |den|)
    (ht : ptsToMicrosDouble num den pts = some t) :
    |t * den - pts * num * 1000000| < 2 * |den| := by
  by_cases hpts : pts = 0
  · subst hpts
    have h0 := ptsToMicrosDouble_zero num den t ht
    subst h0
    simp only [zero_mul, sub_zero, abs_zero]
    have : 0 < |den| := abs_pos.mpr hden
    linarith
  by_cases hnum : num = 0
  · subst hnum
    have h0 := ptsToMicrosDouble_num_zero den pts t ht
    subst h0
    simp only [zero_mul, mul_zero, sub_zero, abs_zero]
    have : 0 < |den| := abs_pos.mpr hden
    linarith
  · unfold ptsToMicrosDouble av_q2d at ht
    simp only [Option.bind_eq_some] at ht
    obtain ⟨a, ⟨n, hn, d, hd, ha⟩, c, hc, b, hb, x, hx, r, hr, ht⟩ := ht
    have hnv : n.val = num :=
      Double.ofInt_exact num n (lt_of_le_of_lt hnumb (by norm_num)) hn
    have hdv : d.val = den :=
      Double.ofInt_exact den d (lt_of_le_of_lt hdenb (by norm_num)) hd
    have hcv : c.val = 1000000 := by
      have := Double.ofInt_exact 1000000 c (by norm_num) hc
      rw [this]
      norm_num
    have hu : (2 : ℚ) ^ (-53 : Int) = 1 / 9007199254740992 := by
      rw [zpow_neg]
      norm_num
    have hmin : (2 : ℚ) ^ (-1022 : Int) ≤ 1 / 4398046511104 := by
      calc (2 : ℚ) ^ (-1022 : Int) ≤ (2 : ℚ) ^ (-42 : Int) :=
            zpow_le_zpow_right₀ (by norm_num) (by norm_num)
        _ = 1 / 4398046511104 := by
            rw [zpow_neg]
            norm_num
    have hnum1 : (1 : ℚ) ≤ |(num : ℚ)| := by
      have : (1 : Int) ≤ |num| := Int.one_le_abs hnum
      exact_mod_cast this
    have hpts1 : (1 : ℚ) ≤ |(pts : ℚ)| := by
      have : (1 : Int) ≤ |pts| := Int.one_le_abs hpts
      exact_mod_cast this
    have hdenq : |(den : ℚ)| ≤ 2147483648 := by
      have : |den| ≤ (2147483648 : Int) := by
        calc |den| ≤ 2 ^ 31 := hdenb
          _ = 2147483648 := by norm_num
      exact_mod_cast this
    have hdenpos : 0 < |(den : ℚ)| := by
      rw [abs_pos]
      exact_mod_cast hden
    have hR : 1 / 2147483648 ≤ |(num : ℚ) / den| := by
      rw [abs_div, div_le_div_iff₀ (by norm_num) hdenpos]
      nlinarith
    -- the quotient of the time base
    have ha1 : |a.val - (num : ℚ) / den| ≤ 1 / 9007199254740992 * |(num : ℚ) / den| := by
      have h1 := Double.div_rel n d a ha (by
        rw [hnv, hdv]
        linarith)
      rw [hnv, hdv, hu] at h1
      exact h1
    have haL := rel_lower _ _ _ (by norm_num) ha1
    -- times one million
    have hac : |a.val * c.val - (num : ℚ) / den * 1000000|
        ≤ (1 / 9007199254740992 + 0 + 1 / 9007199254740992 * 0)
          * |(num : ℚ) / den * 1000000| :=
      rel_mul _ _ _ _ _ _ (by norm_num) ha1 (by
        rw [hcv]
        simp)
    have hacL : 1 / 1099511627776 ≤ |a.val * c.val| := by
      rw [abs_mul, hcv]
      norm_num
      linarith
    have hb1 := Double.mul_rel a c b hb (le_trans hmin (le_trans (by norm_num) hacL))
    rw [hu] at hb1
    have hb2 := rel_step _ _ _ _ _ (by norm_num) hac hb1
    have hbL := rel_lower _ _ _ (by norm_num) hb1
    -- the presentation time
    have hx1 : |x.val - (pts : ℚ)| ≤ 1 / 9007199254740992 * |(pts : ℚ)| := by
      have h1 := Double.round_rel pts 1 x hx (by
        simp only [Nat.cast_one, div_one]
        exact le_trans hmin (le_trans (by norm_num) hpts1))
      simp only [Nat.cast_one, div_one] at h1
      rw [hu] at h1
      exact h1
    have hxL := rel_lower _ _ _ (by norm_num) hx1
    -- the product
    have hbx := rel_mul _ _ _ _ _ _ (by norm_num) hb2 hx1
    have hbxL : 1 / 4398046511104 ≤ |b.val * x.val| := by
      rw [abs_mul]
      have h1 : 1 / 2199023255552 ≤ |b.val| := by linarith
      have h2 : 1 / 2 ≤ |x.val| := by linarith
      calc (1 : ℚ) / 4398046511104 = 1 / 2199023255552 * (1 / 2) := by norm_num
        _ ≤ |b.val| * |x.val| := mul_le_mul h1 h2 (by norm_num) (abs_nonneg _)
    have hr1 := Double.mul_rel b x r hr (le_trans hmin hbxL)
    rw [hu] at hr1
    have hr2 := rel_step _ _ _ _ _ (by norm_num) hbx hr1
    -- the conversion
    have htc := Double.toInt64_close r t ht
    have hEq : |(num : ℚ) / den * 1000000 * pts| ≤ 1125899906842624 := by
      have h1 : |(pts : ℚ) * num * 1000000| ≤ 2 ^ 50 * |(den : ℚ)| := by
        exact_mod_cast hE
      have e : (num : ℚ) / den * 1000000 * pts = ((pts : ℚ) * num * 1000000) / den := by ring
      rw [e, abs_div, div_le_iff₀ hdenpos]
      norm_num at h1 ⊢
      linarith
    have hr3 : |r.val - (num : ℚ) / den * 1000000 * pts| ≤ 3 / 4 :=
      le_trans hr2 (le_trans (mul_le_mul_of_nonneg_left hEq (by norm_num)) (by norm_num))
    have hfin : |(t : ℚ) - (num : ℚ) / den * 1000000 * pts| < 2 := by
      calc |(t : ℚ) - (num : ℚ) / den * 1000000 * pts|
          = |((t : ℚ) - r.val) + (r.val - (num : ℚ) / den * 1000000 * pts)| := by ring_nf
        _ ≤ |(t : ℚ) - r.val| + |r.val - (num : ℚ) / den * 1000000 * pts| := abs_add _ _
        _ < 2 := by linarith
    have hdne : (den : ℚ) ≠ 0 := by exact_mod_cast hden
    have hq : |(t : ℚ) * den - pts * num * 1000000| < 2 * |(den : ℚ)| := by
      have e : (t : ℚ) * den - pts * num * 1000000
          = ((t : ℚ) - (num : ℚ) / den * 1000000 * pts) * den := by
        field_simp
        ring
      rw [e, abs_mul]
      exact mul_lt_mul_of_pos_right hfin hdenpos
    exact_mod_cast hq

/-! ## The timestamp of an enqueued frame -/

/-- C17 as stated fails in two ways.  A frame whose presentation time 0 is
supplied by the stream (time base 1/1000, 25 frames per second) is enqueued
with the synthetic timestamp 40000, not with 0.  And a frame with the
presentation time 99 at the time base 1/24 is enqueued with 4124999, while 99
multiplied by the time base is exactly 4125000 microseconds. -/
theorem FileVideoProvider.timestamp_of_supplied_pts_counterexample :
    (frameWithPts 0).best_effort_timestamp ≠ AV_NOPTS_VALUE
      ∧ (FileVideoProvider.everyFrame.onFrame 0 (frameWithPts 0)).2.map FramePtrWrapper.timestamp
          = some 40000
      ∧ ptsToMicrosDouble 1 1000 0 = some 0
      ∧ synthMicrosDouble 25 1 = some 40000
      ∧ (frameWithPts 99).best_effort_timestamp ≠ AV_NOPTS_VALUE
      ∧ (FileVideoProvider.film.onFrame 0 (frameWithPts 99)).2.map FramePtrWrapper.timestamp
          = some 4124999
      ∧ (99 * 1000000 : Int) = 4125000 * 24 := by
  decide

/-- C17, amended: for every decoded frame that is enqueued, the timestamp is
the value `t` of the double-precision product
`av_q2d(time_base) * 1000000.0 * pts` truncated to `int64_t` whenever `t` is
not 0, and the synthetic timestamp `frame_count * 1000000.0 / fps`, computed
in the same way, exactly when `t` is 0; `t` is 0 for every frame with
`pts = 0`, whether or not the stream supplied a presentation time.  The value
`t` is `pts` multiplied by the time base in microseconds up to rounding: for a
time base with 32-bit members and an exact product of at most 2 ^ 50 in
magnitude, `t` is less than 2 away from it. -/
theorem FileVideoProvider.onFrame_timestamp_double (p : FileVideoProvider) (frame_count : Int)
    (frame : DecodedFrame) (d : FramePtrWrapper) (t : Int)
    (h : (p.onFrame frame_count frame).2 = some d)
    (ht : ptsToMicrosDouble p.time_base_num p.time_base_den frame.best_effort_timestamp
      = some t) :
    (t ≠ 0 → d.timestamp = t)
      ∧ (t = 0 → ∀ u, synthMicrosDouble p.fps (frame_count + 1) = some u → d.timestamp = u)
      ∧ (frame.best_effort_timestamp = 0 → t = 0)
      ∧ (|p.time_base_num| ≤ 2 ^ 31 → p.time_base_den ≠ 0 → |p.time_base_den| ≤ 2 ^ 31 →
          |frame.best_effort_timestamp * p.time_base_num * 1000000|
            ≤ 2 ^ 50 * |p.time_base_den| →
          |t * p.time_base_den - frame.best_effort_timestamp * p.time_base_num * 1000000|
            < 2 * |p.time_base_den|) := by
  have hd : d = p.wrap (frame_count + 1) frame := by
    unfold FileVideoProvider.onFrame at h
    simp only at h
    split at h
    · simp at h
    · split at h
      · simp at h
      · simp only [Option.some.injEq] at h
        exact h.symm
  refine ⟨?_, ?_, ?_, ?_⟩
  · intro hne
    rw [hd]
    simp [FileVideoProvider.wrap, FramePtrWrapper.create, FileVideoProvider.timestampUs,
      FileVideoProvider.ptsToMicros, ht, hne]
  · intro h0 u hu
    rw [hd]
    simp [FileVideoProvider.wrap, FramePtrWrapper.create, FileVideoProvider.timestampUs,
      FileVideoProvider.ptsToMicros, FileVideoProvider.synthMicros, ht, h0, hu]
  · intro hpts
    rw [hpts] at ht
    exact ptsToMicrosDouble_zero p.time_base_num p.time_base_den t ht
  · intro hnumb hden hdenb hE
    exact ptsToMicrosDouble_close p.time_base_num p.time_base_den frame.best_effort_timestamp t
      hnumb hden hdenb hE ht

/-- A frame with the presentation time 99 at the time base 1/24 is enqueued
with the timestamp 4124999, which is 1 away from the exact 4125000. -/
theorem FileVideoProvider.onFrame_timestamp_double_witness :
    (FileVideoProvider.film.wrap (0 + 1) (frameWithPts 99)).timestamp = 4124999
      ∧ |(4124999 : Int) * 24 - 99 * 1 * 1000000| < 2 * |(24 : Int)| :=
  ⟨(FileVideoProvider.onFrame_timestamp_double FileVideoProvider.film 0 (frameWithPts 99)
      (FileVideoProvider.film.wrap (0 + 1) (frameWithPts 99)) 4124999
      (by decide) (by decide)).1 (by decide),
   (FileVideoProvider.onFrame_timestamp_double FileVideoProvider.film 0 (frameWithPts 99)
      (FileVideoProvider.film.wrap (0 + 1) (frameWithPts 99)) 4124999
      (by decide) (by decide)).2.2.2 (by decide) (by decide) (by decide) (by decide)⟩

/-! ## A provider that was never started -/

theorem ThreadProvider.reachable_never_started (s : ThreadProvider)
    (h : ThreadProvider.Reachable (fun _ op => op ≠ ThreadProvider.Op.start)
      ThreadProvider.new s) :
    s.is_exit = true ∧ s.data_queue = [] := by
  induction h with
  | init => exact ⟨rfl, rfl⟩
  | step op _ hok hstep ih =>
    cases op with
    | push d =>
      simp only [ThreadProvider.step, ThreadProvider.push, ih.1, if_true,
        Option.some.injEq] at hstep
      subst hstep
      exact ih
    | pop =>
      simp only [ThreadProvider.step, ThreadProvider.pop, ih.1, if_true,
        Option.some.injEq] at hstep
      subst hstep
      exact ih
    | top =>
      simp only [ThreadProvider.step, ThreadProvider.top, ih.1, if_true,
        Option.some.injEq] at hstep
      subst hstep
      exact ih
    | start => exact absurd rfl hok
    | stop =>
      simp only [ThreadProvider.step, ThreadProvider.stop, Option.some.injEq] at hstep
      subst hstep
      exact ⟨rfl, rfl⟩
    | setMaxQueueLength v =>
      simp only [ThreadProvider.step, ThreadProvider.setMaxQueueLength,
        Option.some.injEq] at hstep
      subst hstep
      exact ih

/-- C19: a newly constructed provider is not running (`is_exit` is initially
true); as long as it has not been started, whatever else is called, `push`
leaves the queue empty and the state unchanged and `pop` and `top` return the
sentinel.  A push changes the state only when `is_exit` is false, and `start`
is what makes it false.  Pushing the timestamps 10, 20, 30, 40 into a new
provider of capacity 3 leaves it empty. -/
theorem ThreadProvider.unstarted_provider_drops_pushes :
    ThreadProvider.new.isRunning = false
      ∧ ThreadProvider.new.is_exit = true
      ∧ (∀ (s : ThreadProvider) (f : FramePtrWrapper),
          ThreadProvider.Reachable (fun _ op => op ≠ ThreadProvider.Op.start)
            ThreadProvider.new s →
          s.data_queue = [] ∧ s.push f = some s
            ∧ s.pop = (FramePtrWrapper.empty, s) ∧ s.top = (FramePtrWrapper.empty, s))
      ∧ (∀ (s s' : ThreadProvider) (f : FramePtrWrapper),
          s.push f = some s' → s' ≠ s → s.is_exit = false)
      ∧ (∀ s s' : ThreadProvider, s.start = some s' → s'.is_exit = false)
      ∧ (ThreadProvider.setMaxQueueLength ThreadProvider.new 3).pushAll
            ([10, 20, 30, 40].map frameAt)
          = some (ThreadProvider.setMaxQueueLength ThreadProvider.new 3)
      ∧ (ThreadProvider.setMaxQueueLength ThreadProvider.new 3).data_queue = [] := by
  refine ⟨rfl, rfl, ?_, ?_, ?_, by decide, rfl⟩
  · intro s f hreach
    obtain ⟨hexit, hq⟩ := ThreadProvider.reachable_never_started s hreach
    refine ⟨hq, ?_, ?_, ?_⟩
    · simp [ThreadProvider.push, hexit]
    · simp [ThreadProvider.pop, hexit]
    · simp [ThreadProvider.top, hexit]
  · intro s s' f hpush hne
    by_cases hexit : s.is_exit = true
    · simp only [ThreadProvider.push, hexit, if_true, Option.some.injEq] at hpush
      exact absurd hpush.symm hne
    · simpa using hexit
  · intro s s' hstart
    unfold ThreadProvider.start at hstart
    split at hstart
    · simp at hstart
    · simp only [Option.some.injEq] at hstart
      rw [← hstart]

/-- A new provider whose capacity has been set to 3 drops a push. -/
theorem ThreadProvider.unstarted_provider_drops_pushes_witness :
    (ThreadProvider.setMaxQueueLength ThreadProvider.new 3).push (frameAt 10)
      = some (ThreadProvider.setMaxQueueLength ThreadProvider.new 3) :=
  (ThreadProvider.unstarted_provider_drops_pushes.2.2.1
    (ThreadProvider.setMaxQueueLength ThreadProvider.new 3) (frameAt 10)
    (ThreadProvider.Reachable.step (ThreadProvider.Op.setMaxQueueLength 3)
      ThreadProvider.Reachable.init (by decide) (by decide))).2.1

/-! ## A push that has passed the gate of the producer -/

/-- C21: for every capacity `C ≥ 1` (in the range of `int`), on a running queue
whose counter agrees with its length `n` and whose length satisfies the gate
`n ≤ (C / 3) * 2` with integer division, the wait condition of the producer is
false and a push evicts no frame: the queue afterwards is the old contents
followed by the new frame, its length is `n + 1`, and `n + 1 ≤ C`.  This is
the push the receive loop performs for a kept and converted frame. -/
theorem FileVideoProvider.gated_push_evicts_nothing (s : ThreadProvider) (f : FramePtrWrapper)
    (C : Nat) (hC : 1 ≤ C) (hmax : C ≤ 2147483647) (hcap : s.max_queue_len = (C : Int))
    (hrun : s.is_exit = false) (hsize : s.curQueueSize = (s.data_queue.length : Int))
    (hgate : s.data_queue.length ≤ C / 3 * 2) :
    FileVideoProvider.waitCondition s = false
      ∧ s.push f = some { s with
          data_queue := s.data_queue ++ [f],
          curQueueSize := (s.data_queue.length : Int) + 1 }
      ∧ (s.data_queue ++ [f]).length = s.data_queue.length + 1
      ∧ s.data_queue.length + 1 ≤ C
      ∧ (∀ (p : FileVideoProvider) (t : Int) (frame : DecodedFrame) (rest : List DecodedFrame)
            (frame_count : Int),
          Int.tmod (frame_count + 1) p.frame_interval = 0 → 0 < frame.sws_len →
          p.receiveLoop t (frame :: rest) frame_count s
            = some (LoopStatus.running,
                { try_time := t, frame_count := frame_count + 1, ready := rest,
                  provider := { s with
                    data_queue := s.data_queue ++ [p.wrap (frame_count + 1) frame],
                    curQueueSize := (s.data_queue.length : Int) + 1 } })) := by
  have hwait : FileVideoProvider.waitCondition s = false := by
    have h := FileVideoProvider.waitCondition_eq s C hmax hcap hrun
    cases hw : FileVideoProvider.waitCondition s with
    | false => rfl
    | true =>
      have := h.1 hw
      omega
  have hlt : s.data_queue.length < C := by omega
  have hpush : ∀ d : FramePtrWrapper, s.push d = some { s with
      data_queue := s.data_queue ++ [d],
      curQueueSize := (s.data_queue.length : Int) + 1 } := by
    intro d
    rw [ThreadProvider.push_eq s d hrun hsize (by omega)]
    have hk : (max 0 ((s.data_queue.length : Int) - s.max_queue_len + 1)).toNat = 0 := by omega
    have hm : min (s.data_queue.length : Int) (s.max_queue_len - 1) = (s.data_queue.length : Int) := by
      omega
    rw [hk, hm, List.drop_zero]
  refine ⟨hwait, hpush f, by simp, hlt, ?_⟩
  intro p t frame rest frame_count hmod hconv
  have hconv' : ¬ frame.sws_len ≤ 0 := by omega
  rw [FileVideoProvider.receiveLoop]
  simp only [hrun, Bool.false_eq_true, if_false, hmod, ne_eq, not_true_eq_false, hconv', hwait,
    hpush]

/-- Capacity 3 and two queued frames (the gate is 3 / 3 * 2 = 2): the push
appends and the queue holds three frames. -/
theorem FileVideoProvider.gated_push_evicts_nothing_witness :
    ({ ThreadProvider.emptyRunning 3 with
        data_queue := [frameAt 10, frameAt 20], curQueueSize := 2 }).push (frameAt 30)
      = some { ThreadProvider.emptyRunning 3 with
          data_queue := [frameAt 10, frameAt 20, frameAt 30], curQueueSize := 3 } :=
  (FileVideoProvider.gated_push_evicts_nothing
    { ThreadProvider.emptyRunning 3 with data_queue := [frameAt 10, frameAt 20], curQueueSize := 2 }
    (frameAt 30) 3 (by decide) (by decide) rfl rfl rfl (by decide)).2.1

/-! ## What the read loop enqueues -/

namespace FileVideoProvider

end FileVideoProvider

namespace FileVideoProvider

end FileVideoProvider

/-- On a running provider `push` is its locked section. -/
theorem ThreadProvider.push_eq_pushLocked (s : ThreadProvider) (d : FramePtrWrapper)
    (hrun : s.is_exit = false) : s.push d = s.pushLocked d := by
  unfold ThreadProvider.push ThreadProvider.pushLocked
  rw [if_neg (by simp [hrun])]

/-- On a running provider the state after `pop` is that of its locked section. -/
theorem ThreadProvider.pop_snd_eq_popLocked (s : ThreadProvider) (hrun : s.is_exit = false) :
    s.pop.2 = s.popLocked := by
  unfold ThreadProvider.pop ThreadProvider.popLocked
  rw [hrun]
  cases s.data_queue <;> rfl

namespace Sys

/-- A step of the consumer keeps the owner of the mutex in step with the
locked sections. -/
theorem consumerStep_inv (σ σ' : Sys) (c : Call) (h : Inv σ)
    (hs : σ.consumerStep c = some σ') : Inv σ' := by
  obtain ⟨sh, mu, cpc, ppc⟩ := σ
  unfold Inv at h ⊢
  unfold consumerStep at hs
  cases cpc <;> simp only [ConsumerPc.locked] at h hs
  all_goals (try cases c)
  all_goals (try split at hs)
  all_goals (try split at hs)
  all_goals
    first
    | (simp only [Option.some.injEq] at hs
       subst hs
       simp_all [ConsumerPc.locked])
    | simp at hs

/-- A step of the producer keeps the owner of the mutex in step with the
locked sections. -/
theorem producerStep_inv (σ σ' : Sys) (n : Produce) (h : Inv σ)
    (hs : σ.producerStep n = some σ') : Inv σ' := by
  obtain ⟨sh, mu, cpc, ppc⟩ := σ
  unfold Inv at h ⊢
  unfold producerStep at hs
  cases ppc <;> simp only [ProducerPc.locked] at h hs
  all_goals (try split at hs)
  all_goals (try split at hs)
  all_goals
    first
    | (simp only [Option.some.injEq] at hs
       subst hs
       simp_all [ProducerPc.locked])
    | simp at hs

/-- Every schedule keeps the owner of the mutex in step with the locked
sections. -/
theorem exec_inv (moves : List Move) :
    ∀ σ σ' : Sys, Inv σ → σ.exec moves = some σ' → Inv σ' := by
  induction moves with
  | nil =>
    intro σ σ' h hs
    simp only [exec, Option.some.injEq] at hs
    rw [← hs]
    exact h
  | cons m rest ih =>
    intro σ σ' h hs
    rw [exec] at hs
    cases hm : σ.step m with
    | none =>
      rw [hm] at hs
      simp at hs
    | some σ1 =>
      rw [hm] at hs
      refine ih σ1 σ' ?_ hs
      cases m with
      | consumer c => exact consumerStep_inv σ σ1 c h hm
      | producer n => exact producerStep_inv σ σ1 n h hm

end Sys


namespace Sys

/-- Right after `start` nobody holds the mutex and no thread is in a locked
section. -/
theorem started_inv (s : ThreadProvider) : Inv (started s) := by
  simp [Inv, started, ConsumerPc.locked, ProducerPc.locked]

/-- When the consumer calls `stop` while the producer stands at the test of
its read loop, the producer sees `is_exit`, leaves the loop and ends, and
`stop` returns in the state that `ThreadProvider.stop` gives. -/
theorem exec_stop_at_loop_head (s : ThreadProvider) :
    (started s).exec
        [Move.consumer Call.stop, Move.consumer Call.stop, Move.consumer Call.stop,
         Move.producer Produce.noFrame, Move.producer Produce.noFrame,
         Move.consumer Call.stop, Move.consumer Call.stop, Move.consumer Call.stop]
      = some (quiet s.stop) := by
  cases hm : s.m_thread <;>
    simp [exec, step, consumerStep, producerStep, started, quiet, ThreadProvider.stop, hm]

/-- With the producer thread ended or never started, `stop` runs through and
returns in the state that `ThreadProvider.stop` gives. -/
theorem exec_stop_quiet (s : ThreadProvider) :
    (quiet s).exec (List.replicate 6 (Move.consumer Call.stop)) = some (quiet s.stop) := by
  cases hm : s.m_thread <;>
    simp [List.replicate, exec, step, consumerStep, quiet, ThreadProvider.stop, hm]

end Sys

/-- C13 as stated fails in both parts.  After two steps of the producer alone,
`push` is about to read `is_exit` (line 36) and nobody holds the mutex; one
step earlier the producer is about to read `is_exit` and `data_queue.size()`
in its wait loop (line 223), again without the mutex.  And when the consumer
calls `stop` after the producer has passed the test of line 36, `stop` reaches
`join` with the mutex held while the producer waits for the mutex: no thread
can take a step, and `stop` has not returned. -/
theorem Sys.unlocked_access_counterexample :
    (Sys.started (ThreadProvider.emptyRunning 100)).exec
        [Move.producer (Produce.frame (frameAt 10)), Move.producer Produce.noFrame]
      = some Sys.beforePushCheck
    ∧ Var.is_exit ∈ Sys.beforePushCheck.producer.accesses
    ∧ Sys.beforePushCheck.mutex ≠ some Tid.producer
    ∧ (Sys.started (ThreadProvider.emptyRunning 100)).exec
        [Move.producer (Produce.frame (frameAt 10))]
      = some Sys.beforeWait
    ∧ Var.data_queue ∈ Sys.beforeWait.producer.accesses
    ∧ Sys.beforeWait.mutex ≠ some Tid.producer
    ∧ Sys.beforePushCheck.exec
        [Move.producer Produce.noFrame, Move.consumer Call.stop, Move.consumer Call.stop,
         Move.consumer Call.stop]
      = some Sys.stuck
    ∧ Sys.stuck.consumer = ConsumerPc.stopJoin
    ∧ Sys.stuck.step (Move.consumer Call.stop) = none
    ∧ (∀ n ∈ [Produce.frame (frameAt 10), Produce.noFrame, Produce.leave],
        Sys.stuck.step (Move.producer n) = none) := by
  decide

/-- C13, amended: under every interleaving of the consumer thread and the
producer thread, every read and write of `data_queue` and `curQueueSize` made
by `push`, `pop`, `top` and `stop` is made while the thread holds the mutex,
and the two threads are never both between a `lock_guard` and the end of its
scope; the flag `is_exit` is written by `stop` with the mutex held and read by
`push`, `pop` and `top` before the mutex is taken. -/
theorem Sys.queue_accesses_hold_mutex (s : ThreadProvider) (moves : List Move) (σ : Sys)
    (h : (Sys.started s).exec moves = some σ) :
    (∀ v ∈ σ.consumer.accesses, v = Var.data_queue ∨ v = Var.curQueueSize →
        σ.mutex = some Tid.consumer)
      ∧ (∀ d, σ.producer = ProducerPc.pushBody d → σ.mutex = some Tid.producer)
      ∧ ¬ (σ.consumer.locked = true ∧ σ.producer.locked = true)
      ∧ (σ.consumer = ConsumerPc.stopSet → σ.mutex = some Tid.consumer)
      ∧ (σ.consumer = ConsumerPc.topCheck ∨ σ.consumer = ConsumerPc.popCheck →
          σ.mutex ≠ some Tid.consumer)
      ∧ (∀ d, σ.producer = ProducerPc.pushCheck d → σ.mutex ≠ some Tid.producer) := by
  have hinv := Sys.exec_inv moves (Sys.started s) σ (Sys.started_inv s) h
  obtain ⟨hc, hp⟩ := hinv
  refine ⟨?_, ?_, ?_, ?_, ?_, ?_⟩
  · intro v hv hq
    apply hc.1
    cases hpc : σ.consumer <;> rw [hpc] at hv <;>
      simp [ConsumerPc.accesses, ConsumerPc.locked] at hv ⊢ <;>
      rcases hq with hq | hq <;> simp [hq] at hv
  · intro d hd
    apply hp.1
    rw [hd]
    rfl
  · rintro ⟨h1, h2⟩
    have := hc.1 h1
    have := hp.1 h2
    simp_all
  · intro hpc
    apply hc.1
    rw [hpc]
    rfl
  · intro hpc hm
    have := hc.2 hm
    rcases hpc with hpc | hpc <;> rw [hpc] at this <;> simp [ConsumerPc.locked] at this
  · intro d hd hm
    have := hp.2 hm
    rw [hd] at this
    simp [ProducerPc.locked] at this

/-- The producer has taken the mutex in `push` and is about to change the
queue. -/
theorem Sys.queue_accesses_hold_mutex_witness :
    Sys.insidePush.mutex = some Tid.producer :=
  (Sys.queue_accesses_hold_mutex (ThreadProvider.emptyRunning 100)
    [Move.producer (Produce.frame (frameAt 10)), Move.producer Produce.noFrame,
     Move.producer Produce.noFrame, Move.producer Produce.noFrame]
    Sys.insidePush (by decide)).2.1 (frameAt 10) rfl

/-- C11: the code does not do what the claim says in every state.  The producer
has passed the test of `is_exit` in `push` (line 36) and has not yet taken the
mutex; the consumer calls `stop`, takes the mutex, sets `is_exit` and reaches
`join` (lines 86 to 89) with the mutex still held.  From then on neither
thread can take a step: `stop` does not return. -/
theorem Sys.stop_deadlocks_with_push :
    (Sys.started (ThreadProvider.emptyRunning 100)).exec
        [Move.producer (Produce.frame (frameAt 10)), Move.producer Produce.noFrame,
         Move.producer Produce.noFrame, Move.consumer Call.stop, Move.consumer Call.stop,
         Move.consumer Call.stop]
      = some Sys.stuck
    ∧ Sys.stuck.consumer = ConsumerPc.stopJoin
    ∧ Sys.stuck.mutex = some Tid.consumer
    ∧ (∀ m : Move, Sys.stuck.step m = none)
    ∧ (∀ (moves : List Move) (σ : Sys), Sys.stuck.exec moves = some σ → moves = []) := by
  have hstep : ∀ m : Move, Sys.stuck.step m = none := by
    intro m
    cases m <;> rfl
  refine ⟨by decide, rfl, rfl, hstep, ?_⟩
  intro moves σ h
  cases moves with
  | nil => rfl
  | cons m rest =>
    rw [Sys.exec, hstep m] at h
    simp at h
